import Mathlib

/-!
Verification development for the AI-Resume-Parser repository.

The Python sources (`schemas.py`, `models.py`, `crud.py`, `main.py`) are
shallowly embedded below.  Pydantic models become Lean structures, the
SQLAlchemy session state becomes an explicit `DB` record of row lists
(insertion-ordered, as SQLite returns rows without an ORDER BY), and the
crud/route functions become pure functions on `DB`.  `db.commit()` calls
are modelled by recording a snapshot of the session state at each commit
point, so that visibility/atomicity questions can be stated.  The store's
uniqueness constraints are not re-enforced by the session model; theorems
about the update path take explicit no-conflict hypotheses where relevant.
-/

set_option autoImplicit false

namespace ResumeParser

/-! ## Python string primitives

`str.strip()`, `str.split(',')` and `", ".join(...)` are the string
operations used by `schemas.Project.split_technologies` and
`crud.create_or_update_resume`.  They are embedded at the character-list
level. -/

/-- Whitespace characters recognised by Python's `str.strip()` (ASCII part). -/
def isPySpace (c : Char) : Bool :=
  c = ' ' || c = '\t' || c = '\n' || c = '\r' || c = '\x0b' || c = '\x0c'

/-- Python `str.strip()` on a character list: drop leading and trailing
whitespace. -/
def stripChars (cs : List Char) : List Char :=
  ((cs.dropWhile isPySpace).reverse.dropWhile isPySpace).reverse

/-- Python `str.strip()`. -/
def pyStrip (s : String) : String :=
  ⟨stripChars s.data⟩

/-- Worker for Python `str.split(',')`: `acc` is the (reversed) current
fragment. Splits at every comma; `"".split(',') = [""]`. -/
def splitCommaChars : List Char → List Char → List (List Char)
  | [], acc => [acc.reverse]
  | c :: cs, acc =>
      if c = ',' then acc.reverse :: splitCommaChars cs []
      else splitCommaChars cs (c :: acc)

/-- Python `s.split(',')`. -/
def pySplitComma (s : String) : List String :=
  (splitCommaChars s.data []).map (fun cs => ⟨cs⟩)

/-- Python `", ".join(...)` on character lists. -/
def joinCS : List (List Char) → List Char
  | [] => []
  | [l] => l
  | l :: ls => l ++ ',' :: ' ' :: joinCS ls

/-- Python `", ".join(strings)` (the exact join used at `crud.py` line 72). -/
def pyJoinCommaSpace (l : List String) : String :=
  ⟨joinCS (l.map String.data)⟩

/-! ## `schemas.py`: the pydantic record types

Every scalar field is `Optional` in the source, hence `Option` here.
`ResumeData.personal_info` is a required field in the source (no default),
hence not an `Option`. -/

/-- `schemas.PersonalInfo`. -/
structure PersonalInfoData where
  name : Option String
  email : Option String
  phone : Option String
  location : Option String
  linkedin_url : Option String
deriving Repr, DecidableEq

/-- `schemas.WorkExperience`. -/
structure WorkExperienceData where
  company : Option String
  job_title : Option String
  start_date : Option String
  end_date : Option String
  description : Option String
deriving Repr, DecidableEq

/-- `schemas.Project` (`technologies : Optional[List[str]] = []`). -/
structure ProjectData where
  name : Option String
  description : Option String
  technologies : Option (List String)
deriving Repr, DecidableEq

/-- `schemas.Education`. -/
structure EducationData where
  institution : Option String
  degree : Option String
  end_date : Option String
deriving Repr, DecidableEq

/-- `schemas.ResumeData`.  `personal_info` is required; `id` defaults to
`None`; the three section lists default to `[]`. -/
structure ResumeData where
  id : Option Nat
  personal_info : PersonalInfoData
  summary : Option String
  skills : Option (List String)
  work_experience : List WorkExperienceData
  projects : List ProjectData
  education : List EducationData
deriving Repr, DecidableEq

/-! ## `models.py`: the stored rows -/

/-- The Python value sitting in the `projects.technologies` string column.
`crud.py` stores `None` unchanged, joins a non-empty list with `", "`, and
passes an empty list through unchanged (the `if proj_data.get("technologies")`
guard is falsy for `[]`), so the column's value domain is this sum. -/
inductive PyTech
  | nullv
  | strv (s : String)
  | listv (l : List String)
deriving Repr, DecidableEq

/-- `models.Resume` row (id, summary). -/
structure ResumeRow where
  id : Nat
  summary : Option String
deriving Repr, DecidableEq

/-- `models.PersonalInfo` row. -/
structure PersonalInfoRow where
  id : Nat
  resume_id : Nat
  name : Option String
  email : Option String
  phone : Option String
  location : Option String
  linkedin_url : Option String
deriving Repr, DecidableEq

/-- `models.Skill` row. -/
structure SkillRow where
  id : Nat
  name : String
deriving Repr, DecidableEq

/-- `models.WorkExperience` row. -/
structure WorkExperienceRow where
  id : Nat
  resume_id : Nat
  company : Option String
  job_title : Option String
  start_date : Option String
  end_date : Option String
  description : Option String
deriving Repr, DecidableEq

/-- `models.Project` row; `technologies` holds the Python value written by
`crud.py` (see `PyTech`). -/
structure ProjectRow where
  id : Nat
  resume_id : Nat
  name : Option String
  description : Option String
  technologies : PyTech
deriving Repr, DecidableEq

/-- `models.Education` row. -/
structure EducationRow where
  id : Nat
  resume_id : Nat
  institution : Option String
  degree : Option String
  end_date : Option String
deriving Repr, DecidableEq

/-- The relational state: one list per table, insertion-ordered, plus the
per-table autoincrement counters.  `assoc` is the
`resume_skill_association` table, a bag of `(resume_id, skill_id)` pairs
with no primary key or uniqueness constraint. -/
structure DB where
  resumes : List ResumeRow
  personalInfos : List PersonalInfoRow
  skills : List SkillRow
  assoc : List (Nat × Nat)
  workExperiences : List WorkExperienceRow
  projects : List ProjectRow
  educations : List EducationRow
  nextResumeId : Nat
  nextPIId : Nat
  nextSkillId : Nat
  nextWorkId : Nat
  nextProjectId : Nat
  nextEducationId : Nat
deriving Repr, DecidableEq

/-- A freshly created store (SQLite autoincrement ids start at 1). -/
def emptyDB : DB :=
  { resumes := [], personalInfos := [], skills := [], assoc := [],
    workExperiences := [], projects := [], educations := [],
    nextResumeId := 1, nextPIId := 1, nextSkillId := 1,
    nextWorkId := 1, nextProjectId := 1, nextEducationId := 1 }

/-! ## `crud.py` -/

/-- Python truthiness of an optional string (`if email:` at `crud.py`
lines 23 and 25): `None` and `""` are falsy. -/
def truthy : Option String → Bool
  | Option.none => false
  | Option.some s => decide (¬ s = "")

/-- `crud.get_or_create_skill`.  Returns the resolved row, the session
state after the call, and whether a `db.commit()` happened inside the call
(it does exactly when the skill was newly created, `crud.py` line 10). -/
def get_or_create_skill (st : DB) (skill_name : String) : SkillRow × DB × Bool :=
  match st.skills.find? (fun s => s.name = skill_name) with
  | Option.some skill => (skill, st, false)
  | Option.none =>
      let skill : SkillRow := { id := st.nextSkillId, name := skill_name }
      (skill,
       { st with skills := st.skills ++ [skill], nextSkillId := st.nextSkillId + 1 },
       true)

/-- The skills loop of `crud.py` lines 58-60: resolve-or-create each name
and append a membership pair to the association collection.  Also returns
the list of committed snapshots produced by `get_or_create_skill` (the
snapshot is taken right after the new skill is added, before the current
membership pair is appended). -/
def skillsLoop (rid : Nat) : DB → List String → DB × List DB
  | st, [] => (st, [])
  | st, n :: ns =>
      let r := get_or_create_skill st n
      let st1 := r.2.1
      let committed : List DB := if r.2.2 then [st1] else []
      let st2 := { st1 with assoc := st1.assoc ++ [(rid, r.1.id)] }
      let rest := skillsLoop rid st2 ns
      (rest.1, committed ++ rest.2)

/-- Rows appended by the work-experience loop (`crud.py` lines 63-65),
with consecutive autoincrement ids. -/
def buildWorkRows (startId rid : Nat) : List WorkExperienceData → List WorkExperienceRow
  | [] => []
  | w :: ws =>
      { id := startId, resume_id := rid, company := w.company,
        job_title := w.job_title, start_date := w.start_date,
        end_date := w.end_date, description := w.description }
        :: buildWorkRows (startId + 1) rid ws

/-- The serialization of an incoming technologies list (`crud.py` lines
70-72): a non-empty list is joined with `", "`; `None` and `[]` are falsy
for the guard and pass through unchanged. -/
def joinTech : Option (List String) → PyTech
  | Option.none => PyTech.nullv
  | Option.some [] => PyTech.listv []
  | Option.some (t :: ts) => PyTech.strv (pyJoinCommaSpace (t :: ts))

/-- Rows appended by the projects loop (`crud.py` lines 68-73). -/
def buildProjectRows (startId rid : Nat) : List ProjectData → List ProjectRow
  | [] => []
  | p :: ps =>
      { id := startId, resume_id := rid, name := p.name,
        description := p.description, technologies := joinTech p.technologies }
        :: buildProjectRows (startId + 1) rid ps

/-- Rows appended by the education loop (`crud.py` lines 76-78). -/
def buildEducationRows (startId rid : Nat) : List EducationData → List EducationRow
  | [] => []
  | e :: es =>
      { id := startId, resume_id := rid, institution := e.institution,
        degree := e.degree, end_date := e.end_date }
        :: buildEducationRows (startId + 1) rid es

def appendWork (rid : Nat) (st : DB) (l : List WorkExperienceData) : DB :=
  { st with workExperiences := st.workExperiences ++ buildWorkRows st.nextWorkId rid l,
            nextWorkId := st.nextWorkId + l.length }

def appendProjects (rid : Nat) (st : DB) (l : List ProjectData) : DB :=
  { st with projects := st.projects ++ buildProjectRows st.nextProjectId rid l,
            nextProjectId := st.nextProjectId + l.length }

def appendEducations (rid : Nat) (st : DB) (l : List EducationData) : DB :=
  { st with educations := st.educations ++ buildEducationRows st.nextEducationId rid l,
            nextEducationId := st.nextEducationId + l.length }

/-- The identity lookup of `crud.py` lines 18-26: email first (when
truthy), then phone (when truthy and the email lookup found nothing). -/
def resolveTarget (db : DB) (rd : ResumeData) : Option PersonalInfoRow :=
  let email := rd.personal_info.email
  let phone := rd.personal_info.phone
  let byEmail :=
    if truthy email then db.personalInfos.find? (fun p => p.email = email)
    else Option.none
  match byEmail with
  | Option.some pi => Option.some pi
  | Option.none =>
      if truthy phone then db.personalInfos.find? (fun p => p.phone = phone)
      else Option.none

/-- Result of one upsert: final session state, the committed snapshots (in
order; the final `db.commit()` at `crud.py` line 80 is always last), and
the id of the created/updated resume. -/
structure UpsertOut where
  db : DB
  commits : List DB
  rid : Nat
deriving Repr, DecidableEq

/-- The update branch of `crud.py` lines 28-44: clear the association
entries and the three child-row tables for the target resume, overwrite
its summary, and overwrite every PersonalInfo scalar field with the
incoming values. -/
def updateHead (db : DB) (rd : ResumeData) (pi : PersonalInfoRow) : DB :=
  let rid := pi.resume_id
  { db with
      assoc := db.assoc.filter (fun a => ¬ a.1 = rid),
      workExperiences := db.workExperiences.filter (fun w => ¬ w.resume_id = rid),
      projects := db.projects.filter (fun p => ¬ p.resume_id = rid),
      educations := db.educations.filter (fun e => ¬ e.resume_id = rid),
      resumes := db.resumes.map (fun r =>
        if r.id = rid then { r with summary := rd.summary } else r),
      personalInfos := db.personalInfos.map (fun p =>
        if p.id = pi.id then
          { p with name := rd.personal_info.name,
                   email := rd.personal_info.email,
                   phone := rd.personal_info.phone,
                   location := rd.personal_info.location,
                   linkedin_url := rd.personal_info.linkedin_url }
        else p) }

/-- The create branch of `crud.py` lines 46-53: a fresh resume row (note
that the source never assigns `summary` on this branch, so it stays
`NULL`) and a fresh PersonalInfo row built from the incoming block. -/
def createHead (db : DB) (rd : ResumeData) : DB :=
  { db with
      resumes := db.resumes ++ [{ id := db.nextResumeId, summary := Option.none }],
      personalInfos := db.personalInfos ++
        [{ id := db.nextPIId, resume_id := db.nextResumeId,
           name := rd.personal_info.name,
           email := rd.personal_info.email,
           phone := rd.personal_info.phone,
           location := rd.personal_info.location,
           linkedin_url := rd.personal_info.linkedin_url }],
      nextResumeId := db.nextResumeId + 1,
      nextPIId := db.nextPIId + 1 }

/-- The common tail of `crud.py` lines 56-78: the skills loop (guarded by
the truthiness of `resume_data.skills`) followed by the three child-row
append loops.  Returns the state before the final commit together with
the commit snapshots produced inside the skills loop. -/
def upsertTail (rid : Nat) (st0 : DB) (rd : ResumeData) : DB × List DB :=
  let skillsRes :=
    match rd.skills with
    | Option.some l => if ¬ l = [] then skillsLoop rid st0 l else (st0, [])
    | Option.none => (st0, [])
  let st2 := appendWork rid skillsRes.1 rd.work_experience
  let st3 := appendProjects rid st2 rd.projects
  let st4 := appendEducations rid st3 rd.education
  (st4, skillsRes.2)

/-- `crud.create_or_update_resume`, fully instrumented: identity
resolution, the branch head, the common tail, and the final commit at
line 80 (always the last snapshot). -/
def createOrUpdateFull (db : DB) (rd : ResumeData) : UpsertOut :=
  match resolveTarget db rd with
  | Option.some pi =>
      let t := upsertTail pi.resume_id (updateHead db rd pi) rd
      { db := t.1, commits := t.2 ++ [t.1], rid := pi.resume_id }
  | Option.none =>
      let t := upsertTail db.nextResumeId (createHead db rd) rd
      { db := t.1, commits := t.2 ++ [t.1], rid := db.nextResumeId }

/-- `crud.create_or_update_resume`, final state only. -/
def create_or_update_resume (db : DB) (rd : ResumeData) : DB :=
  (createOrUpdateFull db rd).db

/-! ## `schemas.py` validators and `main.py` query surface -/

/-- `schemas.Project.split_technologies` (mode `before`): a string from the
store is split on every comma and each fragment stripped; any other value
passes through (`None` stays `None`, a list stays a list). -/
def split_technologies : PyTech → Option (List String)
  | PyTech.strv s => Option.some ((pySplitComma s).map pyStrip)
  | PyTech.nullv => Option.none
  | PyTech.listv l => Option.some l

/-- `schemas.ResumeData.skills_to_strings`: a list of Skill rows becomes
the list of their names (the `hasattr` guard is the always-true branch for
row input; for the empty list the pass-through branch returns `[]`, which
coincides with the map). -/
def skills_to_strings (v : List SkillRow) : List String :=
  v.map (fun s => s.name)

/-- The Skill rows loaded for `db_resume.skills`: one per association entry
of the resume, joined to the skills table. -/
def skillRowsOf (db : DB) (rid : Nat) : List SkillRow :=
  (db.assoc.filter (fun a => a.1 = rid)).filterMap
    (fun a => db.skills.find? (fun s => s.id = a.2))

def toWorkData (w : WorkExperienceRow) : WorkExperienceData :=
  { company := w.company, job_title := w.job_title, start_date := w.start_date,
    end_date := w.end_date, description := w.description }

def toProjectData (p : ProjectRow) : ProjectData :=
  { name := p.name, description := p.description,
    technologies := split_technologies p.technologies }

def toEducationData (e : EducationRow) : EducationData :=
  { institution := e.institution, degree := e.degree, end_date := e.end_date }

/-- The outbound aggregate built by the three read routes of `main.py`
(lines 129-136, 148-155, 162-170): identical field-by-field construction,
differing only in whether `id` is passed. -/
def aggregate (db : DB) (r : ResumeRow) (pi : PersonalInfoRow) (idv : Option Nat) : ResumeData :=
  { id := idv,
    personal_info :=
      { name := pi.name, email := pi.email, phone := pi.phone,
        location := pi.location, linkedin_url := pi.linkedin_url },
    summary := r.summary,
    skills := Option.some (skills_to_strings (skillRowsOf db r.id)),
    work_experience := (db.workExperiences.filter (fun w => w.resume_id = r.id)).map toWorkData,
    projects := (db.projects.filter (fun p => p.resume_id = r.id)).map toProjectData,
    education := (db.educations.filter (fun e => e.resume_id = r.id)).map toEducationData }

/-- Outcome of a read route: HTTP 404, a server-side error (pydantic
rejecting a resume that has no PersonalInfo row), or the aggregate. -/
inductive FetchResult
  | notFound
  | invalid
  | ok (res : ResumeData)
deriving Repr, DecidableEq

/-- `main.read_resume` (GET /resumes/\x7bresume_id\x7d, lines 120-136).
`id` is not passed to the response model, so it keeps its `None` default. -/
def read_resume (db : DB) (resume_id : Nat) : FetchResult :=
  match db.resumes.find? (fun r => r.id = resume_id) with
  | Option.none => FetchResult.notFound
  | Option.some r =>
      match db.personalInfos.find? (fun p => p.resume_id = resume_id) with
      | Option.none => FetchResult.invalid
      | Option.some pi => FetchResult.ok (aggregate db r pi Option.none)

/-- `main.search_resume_by_email` (lines 138-155).  404 when no
PersonalInfo matches or when the matching row has no owning resume;
`id` is again not passed. -/
def search_resume_by_email (db : DB) (email : String) : FetchResult :=
  match db.personalInfos.find? (fun p => p.email = Option.some email) with
  | Option.none => FetchResult.notFound
  | Option.some pi =>
      match db.resumes.find? (fun r => r.id = pi.resume_id) with
      | Option.none => FetchResult.notFound
      | Option.some r => FetchResult.ok (aggregate db r pi Option.none)

/-- `main.list_all_resumes` (lines 157-172): every resume as an aggregate,
this time with `id := some r.id`.  A resume lacking a PersonalInfo row
would crash the route, modelled as `Option.none` for the whole call. -/
def list_all_resumes (db : DB) : Option (List ResumeData) :=
  db.resumes.mapM (fun r =>
    (db.personalInfos.find? (fun p => p.resume_id = r.id)).map
      (fun pi => aggregate db r pi (Option.some r.id)))

/-- `main.delete_resume` (lines 175-186): 404 when the id is absent
(`Option.none`); otherwise the resume is deleted and the
`cascade="all, delete-orphan"` relationships remove its PersonalInfo,
WorkExperience, Project and Education rows and its association entries,
while the skills table is untouched. -/
def delete_resume (db : DB) (resume_id : Nat) : Option DB :=
  match db.resumes.find? (fun r => r.id = resume_id) with
  | Option.none => Option.none
  | Option.some _ =>
      Option.some
        { db with
            resumes := db.resumes.filter (fun r => ¬ r.id = resume_id),
            personalInfos := db.personalInfos.filter (fun p => ¬ p.resume_id = resume_id),
            workExperiences := db.workExperiences.filter (fun w => ¬ w.resume_id = resume_id),
            projects := db.projects.filter (fun p => ¬ p.resume_id = resume_id),
            educations := db.educations.filter (fun e => ¬ e.resume_id = resume_id),
            assoc := db.assoc.filter (fun a => ¬ a.1 = resume_id) }

/-! ## Inbound JSON validation (pydantic) for `schemas.ResumeData`

Pydantic distinguishes an absent key (the field default applies) from an
explicit `null` (must be allowed by the annotation).  `RawField` records
that distinction for one JSON key. -/

inductive RawField (α : Type)
  | absent
  | null
  | val (a : α)
deriving Repr, DecidableEq

/-- The JSON shape of the `personal_info` block before validation. -/
structure RawPersonalInfo where
  name : RawField String
  email : RawField String
  phone : RawField String
  location : RawField String
  linkedin_url : RawField String
deriving Repr, DecidableEq

/-- The JSON shape of an inbound record before validation. Section-list
elements are kept in their typed form (their validation is not at issue
here). -/
structure RawResumeData where
  id : RawField Nat
  personal_info : RawField RawPersonalInfo
  summary : RawField String
  skills : RawField (List String)
  work_experience : RawField (List WorkExperienceData)
  projects : RawField (List ProjectData)
  education : RawField (List EducationData)
deriving Repr, DecidableEq

/-- `Optional[...] = None`: absent and `null` both become `None`. -/
def validateOpt {α : Type} : RawField α → Option α
  | RawField.absent => Option.none
  | RawField.null => Option.none
  | RawField.val a => Option.some a

/-- `List[...] = []`: absent becomes `[]`, but an explicit `null` is not a
list and is rejected. -/
def validateListDefault {α : Type} (field : String) :
    RawField (List α) → Except String (List α)
  | RawField.absent => Except.ok []
  | RawField.null => Except.error (field ++ ": Input should be a valid list")
  | RawField.val l => Except.ok l

/-- `Optional[List[str]] = []` (the `skills` field): absent becomes the
default `[]`, `null` is allowed and becomes `None`. -/
def validateOptListDefault {α : Type} :
    RawField (List α) → Option (List α)
  | RawField.absent => Option.some []
  | RawField.null => Option.none
  | RawField.val l => Option.some l

/-- Validation of the `personal_info` block: every field optional. -/
def validatePersonalInfo (r : RawPersonalInfo) : PersonalInfoData :=
  { name := validateOpt r.name, email := validateOpt r.email,
    phone := validateOpt r.phone, location := validateOpt r.location,
    linkedin_url := validateOpt r.linkedin_url }

/-- Pydantic validation of `schemas.ResumeData`.  `personal_info` has no
default and no `Optional` annotation, so an absent or `null` block is a
validation error; all other fields default. -/
def validateResumeData (raw : RawResumeData) : Except String ResumeData :=
  match raw.personal_info with
  | RawField.absent => Except.error "personal_info: Field required"
  | RawField.null => Except.error "personal_info: Input should be a valid dictionary"
  | RawField.val rpi => do
      let work ← validateListDefault "work_experience" raw.work_experience
      let projs ← validateListDefault "projects" raw.projects
      let edus ← validateListDefault "education" raw.education
      Except.ok
        { id := validateOpt raw.id,
          personal_info := validatePersonalInfo rpi,
          summary := validateOpt raw.summary,
          skills := validateOptListDefault raw.skills,
          work_experience := work,
          projects := projs,
          education := edus }

/-! ## Store invariants

`DB.WF` collects the invariants the relational schema guarantees for any
state reachable through the API: unique primary keys below the
autoincrement counters, foreign keys referencing live rows, the unique
constraint on skill names, the 1:1 resume/personal-info pairing, and the
fact that a committed `technologies` column never holds a non-empty raw
list (the store cannot bind one). -/

/-- A committed `technologies` column value is never a non-empty raw list
(the store cannot bind one). -/
def storedTechOk : PyTech → Bool
  | PyTech.listv l => l.isEmpty
  | _ => true

abbrev DB.WF (db : DB) : Prop :=
  (db.resumes.map (fun r => r.id)).Nodup
  ∧ (∀ r ∈ db.resumes, r.id < db.nextResumeId)
  ∧ (db.personalInfos.map (fun p => p.id)).Nodup
  ∧ (∀ p ∈ db.personalInfos, p.id < db.nextPIId)
  ∧ (db.personalInfos.map (fun p => p.resume_id)).Nodup
  ∧ (∀ p ∈ db.personalInfos, ∃ r ∈ db.resumes, p.resume_id = r.id)
  ∧ (∀ r ∈ db.resumes, ∃ p ∈ db.personalInfos, p.resume_id = r.id)
  ∧ (db.skills.map (fun s => s.id)).Nodup
  ∧ (db.skills.map (fun s => s.name)).Nodup
  ∧ (∀ s ∈ db.skills, s.id < db.nextSkillId)
  ∧ (∀ w ∈ db.workExperiences, ∃ r ∈ db.resumes, w.resume_id = r.id)
  ∧ (∀ p ∈ db.projects, ∃ r ∈ db.resumes, p.resume_id = r.id)
  ∧ (∀ e ∈ db.educations, ∃ r ∈ db.resumes, e.resume_id = r.id)
  ∧ (∀ a ∈ db.assoc, (∃ r ∈ db.resumes, a.1 = r.id) ∧ (∃ s ∈ db.skills, a.2 = s.id))
  ∧ (∀ p ∈ db.projects, storedTechOk p.technologies = true)

/-- The part of `DB.WF` concerning the skills table: unique ids below the
counter and unique names.  This is the invariant the skills loop
preserves. -/
abbrev SkInv (st : DB) : Prop :=
  (st.skills.map (fun s => s.id)).Nodup
  ∧ (st.skills.map (fun s => s.name)).Nodup
  ∧ (∀ s ∈ st.skills, s.id < st.nextSkillId)

/-- The incoming skill-name list actually iterated by the skills loop
(`None` and `[]` both mean no iterations). -/
def skillNamesOf (rd : ResumeData) : List String :=
  match rd.skills with
  | Option.some l => l
  | Option.none => []

/-- The skill names linked to a resume, read back through the association
table and the skills table. -/
def memberSkillNames (db : DB) (rid : Nat) : List String :=
  ((db.assoc.filter (fun a => a.1 = rid)).filterMap
    (fun a => db.skills.find? (fun s => s.id = a.2))).map (fun s => s.name)

/-- Decidable check that an incoming technologies value is a round-trip
safe tag list: either absent, or a non-empty list of comma-free tags that
carry no surrounding whitespace. -/
def techTagsOk : Option (List String) → Bool
  | Option.none => true
  | Option.some [] => false
  | Option.some (t :: ts) =>
      (t :: ts).all (fun u => (¬ ',' ∈ u.data) ∧ pyStrip u = u)

/-- The technologies values of the projects of a fetched aggregate
(empty when the fetch did not succeed). -/
def fetchedTechnologies : FetchResult → List (Option (List String))
  | FetchResult.ok res => res.projects.map (fun p => p.technologies)
  | FetchResult.notFound => []
  | FetchResult.invalid => []

/-- The email identity key resolves: the incoming email is truthy and some
stored PersonalInfo carries exactly that email. -/
def EmailResolves (db : DB) (rd : ResumeData) : Prop :=
  truthy rd.personal_info.email = true
  ∧ ∃ pi ∈ db.personalInfos, pi.email = rd.personal_info.email

/-- The phone identity key resolves. -/
def PhoneResolves (db : DB) (rd : ResumeData) : Prop :=
  truthy rd.personal_info.phone = true
  ∧ ∃ pi ∈ db.personalInfos, pi.phone = rd.personal_info.phone

instance (db : DB) (rd : ResumeData) : Decidable (EmailResolves db rd) := by
  unfold EmailResolves
  infer_instance

instance (db : DB) (rd : ResumeData) : Decidable (PhoneResolves db rd) := by
  unfold PhoneResolves
  infer_instance

/-! ## Concrete fixtures used by counterexamples and witnesses -/

/-- An all-null personal-info block. -/
def pdEmpty : PersonalInfoData :=
  { name := Option.none, email := Option.none, phone := Option.none,
    location := Option.none, linkedin_url := Option.none }

/-- Personal info carrying only the email `a@x.com`. -/
def pdEmailA : PersonalInfoData :=
  { pdEmpty with email := Option.some "a@x.com" }

/-- First submission of the §8 scenario: email `a@x.com`, skill `Go`, one
work experience at `Acme`. -/
def rdScenarioA : ResumeData :=
  { id := Option.none, personal_info := pdEmailA, summary := Option.none,
    skills := Option.some ["Go"],
    work_experience :=
      [{ company := Option.some "Acme", job_title := Option.none,
         start_date := Option.none, end_date := Option.none,
         description := Option.none }],
    projects := [], education := [] }

/-- Second submission of the §8 scenario: same email, skill `Rust`, no
work experience, one project with technologies `["Go", "Kafka"]`. -/
def rdScenarioB : ResumeData :=
  { id := Option.none, personal_info := pdEmailA, summary := Option.some "s2",
    skills := Option.some ["Rust"],
    work_experience :=
      [{ company := Option.some "Beta", job_title := Option.none,
         start_date := Option.none, end_date := Option.none,
         description := Option.none }],
    projects :=
      [{ name := Option.some "P", description := Option.none,
         technologies := Option.some ["Go", "Kafka"] }],
    education := [] }

/-- The store after upserting `rdScenarioA` into a fresh store. -/
def dbScenario : DB := (createOrUpdateFull emptyDB rdScenarioA).db

/-- The stored PersonalInfo row of `dbScenario` (id 1, resume 1). -/
def piRowA : PersonalInfoRow :=
  { id := 1, resume_id := 1, name := Option.none,
    email := Option.some "a@x.com", phone := Option.none,
    location := Option.none, linkedin_url := Option.none }

/-- A record listing the same skill twice. -/
def rdGoGo : ResumeData :=
  { id := Option.none, personal_info := pdEmpty, summary := Option.none,
    skills := Option.some ["Go", "Go"],
    work_experience := [], projects := [], education := [] }

/-- Email `b@x.com`, skill `Python`. -/
def rdPythonB : ResumeData :=
  { id := Option.none,
    personal_info := { pdEmpty with email := Option.some "b@x.com" },
    summary := Option.none, skills := Option.some ["Python"],
    work_experience := [], projects := [], education := [] }

/-- Email `a@x.com`, skill `Python`. -/
def rdPythonA : ResumeData :=
  { id := Option.none, personal_info := pdEmailA, summary := Option.none,
    skills := Option.some ["Python"],
    work_experience := [], projects := [], education := [] }

/-- The store after upserting `rdPythonA` and then `rdPythonB` (two
resumes, both listing the skill `Python`). -/
def dbPythonTwice : DB :=
  (createOrUpdateFull (createOrUpdateFull emptyDB rdPythonA).db rdPythonB).db

/-- A record whose single project has the comma-free but space-padded
technology tag `" Go"`. -/
def rdTechPadded : ResumeData :=
  { id := Option.none, personal_info := pdEmpty, summary := Option.none,
    skills := Option.none,
    work_experience := [],
    projects :=
      [{ name := Option.some "P", description := Option.none,
         technologies := Option.some [" Go"] }],
    education := [] }

/-- A record whose single project has one technology tag containing a
comma. -/
def rdTechComma : ResumeData :=
  { id := Option.none, personal_info := pdEmpty, summary := Option.none,
    skills := Option.none,
    work_experience := [],
    projects :=
      [{ name := Option.some "P", description := Option.none,
         technologies := Option.some ["C, embedded"] }],
    education := [] }

/-- A record whose single project has technologies `["Go", "Kafka"]`. -/
def rdTechGoKafka : ResumeData :=
  { id := Option.none, personal_info := pdEmpty, summary := Option.none,
    skills := Option.none,
    work_experience := [],
    projects :=
      [{ name := Option.some "P", description := Option.none,
         technologies := Option.some ["Go", "Kafka"] }],
    education := [] }

/-- The identifier field of a successful fetch (`none` when the fetch did
not succeed). -/
def fetchedId : FetchResult → Option (Option Nat)
  | FetchResult.ok res => Option.some res.id
  | FetchResult.notFound => Option.none
  | FetchResult.invalid => Option.none

/-- The record validated from `rawEmptyWithPI`: everything null/empty
(`skills` gets its `[]` default). -/
def rdAllEmpty : ResumeData :=
  { id := Option.none, personal_info := pdEmpty, summary := Option.none,
    skills := Option.some [], work_experience := [], projects := [],
    education := [] }

/-- The aggregate returned when fetching resume 1 of `dbScenario`. -/
def resScenarioFetch : ResumeData :=
  { id := Option.none, personal_info := pdEmailA, summary := Option.none,
    skills := Option.some ["Go"],
    work_experience :=
      [{ company := Option.some "Acme", job_title := Option.none,
         start_date := Option.none, end_date := Option.none,
         description := Option.none }],
    projects := [], education := [] }

/-- The aggregate returned when fetching the resume created from
`rdTechComma`: the single comma-carrying tag has been split in two. -/
def resTechCommaFetch : ResumeData :=
  { id := Option.none, personal_info := pdEmpty, summary := Option.none,
    skills := Option.some [],
    work_experience := [],
    projects :=
      [{ name := Option.some "P", description := Option.none,
         technologies := Option.some ["C", "embedded"] }],
    education := [] }

/-- The fully-absent inbound JSON record. -/
def rawAllAbsent : RawResumeData :=
  { id := RawField.absent, personal_info := RawField.absent,
    summary := RawField.absent, skills := RawField.absent,
    work_experience := RawField.absent, projects := RawField.absent,
    education := RawField.absent }

/-- The inbound JSON record whose personal-info block is present but
empty, with every other field absent. -/
def rawEmptyWithPI : RawResumeData :=
  { rawAllAbsent with
      personal_info :=
        RawField.val
          { name := RawField.absent, email := RawField.absent,
            phone := RawField.absent, location := RawField.absent,
            linkedin_url := RawField.absent } }

/-! ## Lemmas about the Python string primitives -/

theorem dropWhile_head_not {α : Type} (p : α → Bool) :
    ∀ (l : List α) (c : α), (l.dropWhile p).head? = Option.some c → p c = false := by
  intro l
  induction l with
  | nil => intro c h; simp [List.dropWhile] at h
  | cons a t ih =>
      intro c h
      rw [List.dropWhile_cons] at h
      by_cases hp : p a = true
      · rw [if_pos hp] at h; exact ih c h
      · rw [if_neg hp] at h
        simp only [List.head?_cons, Option.some_inj] at h
        subst h
        rw [Bool.not_eq_true] at hp
        exact hp

theorem dropWhile_eq_self_of_head {α : Type} (p : α → Bool) (l : List α)
    (h : ∀ c, l.head? = Option.some c → p c = false) : l.dropWhile p = l := by
  cases l with
  | nil => rfl
  | cons a t =>
      have ha := h a rfl
      rw [List.dropWhile_cons]
      simp [ha]

theorem mem_of_mem_dropWhile {α : Type} (p : α → Bool) :
    ∀ (l : List α) (a : α), a ∈ l.dropWhile p → a ∈ l := by
  intro l
  induction l with
  | nil => intro a h; simp [List.dropWhile] at h
  | cons b t ih =>
      intro a h
      rw [List.dropWhile_cons] at h
      by_cases hp : p b = true
      · rw [if_pos hp] at h; exact List.mem_cons_of_mem b (ih a h)
      · rw [if_neg hp] at h; exact h

theorem dropWhile_getLastQ {α : Type} (p : α → Bool) :
    ∀ (l : List α), l.dropWhile p ≠ [] → (l.dropWhile p).getLast? = l.getLast? := by
  intro l
  induction l with
  | nil => intro h; simp [List.dropWhile] at h
  | cons a t ih =>
      intro h
      rw [List.dropWhile_cons] at h ⊢
      by_cases hp : p a = true
      · rw [if_pos hp] at h ⊢
        have ht : t ≠ [] := by
          intro he
          rw [he] at h
          simp [List.dropWhile] at h
        rw [ih h]
        cases t with
        | nil => exact absurd rfl ht
        | cons b t' => rw [List.getLast?_cons_cons]
      · rw [if_neg hp]

theorem stripChars_head_not (cs : List Char) (c : Char)
    (h : (stripChars cs).head? = Option.some c) : isPySpace c = false := by
  unfold stripChars at h
  rw [List.head?_reverse] at h
  by_cases hX : ((cs.dropWhile isPySpace).reverse).dropWhile isPySpace = []
  · rw [hX] at h; simp at h
  · rw [dropWhile_getLastQ _ _ hX, List.getLast?_reverse] at h
    exact dropWhile_head_not _ _ _ h

theorem stripChars_reverse_head_not (cs : List Char) (c : Char)
    (h : (stripChars cs).reverse.head? = Option.some c) : isPySpace c = false := by
  unfold stripChars at h
  rw [List.reverse_reverse] at h
  exact dropWhile_head_not _ _ _ h

theorem stripChars_idem (cs : List Char) :
    stripChars (stripChars cs) = stripChars cs := by
  have h1 : (stripChars cs).dropWhile isPySpace = stripChars cs :=
    dropWhile_eq_self_of_head _ _ (fun c hc => stripChars_head_not cs c hc)
  have h2 : (stripChars cs).reverse.dropWhile isPySpace = (stripChars cs).reverse :=
    dropWhile_eq_self_of_head _ _ (fun c hc => stripChars_reverse_head_not cs c hc)
  show ((((stripChars cs).dropWhile isPySpace).reverse).dropWhile isPySpace).reverse
        = stripChars cs
  rw [h1, h2, List.reverse_reverse]

theorem mem_of_mem_stripChars (cs : List Char) (c : Char)
    (h : c ∈ stripChars cs) : c ∈ cs := by
  unfold stripChars at h
  rw [List.mem_reverse] at h
  have h2 := mem_of_mem_dropWhile _ _ _ h
  rw [List.mem_reverse] at h2
  exact mem_of_mem_dropWhile _ _ _ h2

theorem stripChars_cons_space (cs : List Char) :
    stripChars (' ' :: cs) = stripChars cs := by
  unfold stripChars
  rw [List.dropWhile_cons]
  have hsp : isPySpace ' ' = true := by decide
  rw [if_pos hsp]

theorem splitCommaChars_no_comma (cs : List Char) :
    ∀ acc, (∀ c ∈ cs, ¬ c = ',') → splitCommaChars cs acc = [acc.reverse ++ cs] := by
  induction cs with
  | nil => intro acc _; simp [splitCommaChars]
  | cons c cs ih =>
      intro acc h
      have hc : ¬ c = ',' := h c (by simp)
      simp only [splitCommaChars, if_neg hc]
      rw [ih (c :: acc) (fun d hd => h d (by simp [hd]))]
      simp

theorem splitCommaChars_append_comma (l : List Char) :
    ∀ acc rest, (∀ c ∈ l, ¬ c = ',') →
      splitCommaChars (l ++ ',' :: rest) acc
        = (acc.reverse ++ l) :: splitCommaChars rest [] := by
  induction l with
  | nil => intro acc rest _; simp [splitCommaChars]
  | cons c l ih =>
      intro acc rest h
      have hc : ¬ c = ',' := h c (by simp)
      simp only [List.cons_append, splitCommaChars, if_neg hc, List.append_eq]
      rw [ih (c :: acc) rest (fun d hd => h d (by simp [hd]))]
      simp

theorem splitCommaChars_joinCS (ls : List (List Char)) :
    ∀ l acc, (∀ c ∈ l, ¬ c = ',') → (∀ m ∈ ls, ∀ c ∈ m, ¬ c = ',') →
      splitCommaChars (joinCS (l :: ls)) acc
        = (acc.reverse ++ l) :: ls.map (fun m => ' ' :: m) := by
  induction ls with
  | nil =>
      intro l acc hl _
      simpa [joinCS] using splitCommaChars_no_comma l acc hl
  | cons m ms ih =>
      intro l acc hl hms
      have hjoin : joinCS (l :: m :: ms) = l ++ ',' :: ' ' :: joinCS (m :: ms) := rfl
      rw [hjoin, splitCommaChars_append_comma l acc _ hl]
      have hsp : ¬ (' ' = ',') := by decide
      simp only [splitCommaChars, if_neg hsp]
      rw [ih m [' '] (hms m (by simp)) (fun u hu => hms u (by simp [hu]))]
      simp

theorem splitCommaChars_frag_no_comma :
    ∀ (cs acc : List Char), (∀ c ∈ acc, ¬ c = ',') →
      ∀ t ∈ splitCommaChars cs acc, ∀ c ∈ t, ¬ c = ',' := by
  intro cs
  induction cs with
  | nil =>
      intro acc hacc t ht c hc
      simp only [splitCommaChars, List.mem_singleton] at ht
      subst ht
      exact hacc c (List.mem_reverse.mp hc)
  | cons d cs ih =>
      intro acc hacc t ht c hc
      by_cases hd : d = ','
      · subst hd
        simp only [splitCommaChars, if_pos rfl] at ht
        rcases List.mem_cons.mp ht with h1 | h2
        · subst h1; exact hacc c (List.mem_reverse.mp hc)
        · exact ih [] (by simp) t h2 c hc
      · simp only [splitCommaChars, if_neg hd] at ht
        refine ih (d :: acc) ?_ t ht c hc
        intro x hx
        rcases List.mem_cons.mp hx with h1 | h2
        · rw [h1]; exact hd
        · exact hacc x h2

theorem map_strip_spaced (ts : List String) (h : ∀ t ∈ ts, pyStrip t = t) :
    ((ts.map String.data).map (fun m => ' ' :: m)).map
        (fun cs => pyStrip ⟨cs⟩) = ts := by
  induction ts with
  | nil => rfl
  | cons u us ih =>
      simp only [List.map_cons]
      rw [ih (fun x hx => h x (by simp [hx]))]
      have h1 : pyStrip ⟨' ' :: u.data⟩ = (⟨stripChars u.data⟩ : String) := by
        show (⟨stripChars (' ' :: u.data)⟩ : String) = ⟨stripChars u.data⟩
        rw [stripChars_cons_space]
      rw [h1]
      have h2 : (⟨stripChars u.data⟩ : String) = u := h u (by simp)
      rw [h2]

/-- The serialization round-trip at the heart of the technologies field:
joining a non-empty list of comma-free, already-stripped tags with `", "`
and then splitting on `','` and stripping each fragment restores the
list. -/
theorem tech_roundtrip (ts : List String) (hne : ¬ ts = [])
    (h : ∀ t ∈ ts, (¬ ',' ∈ t.data) ∧ pyStrip t = t) :
    split_technologies (joinTech (Option.some ts)) = Option.some ts := by
  cases ts with
  | nil => exact absurd rfl hne
  | cons t ts' =>
      show Option.some ((pySplitComma (pyJoinCommaSpace (t :: ts'))).map pyStrip)
            = Option.some (t :: ts')
      have hcf : ∀ c ∈ t.data, ¬ c = ',' := by
        intro c hc he
        exact (h t (by simp)).1 (he ▸ hc)
      have hcf2 : ∀ m ∈ ts'.map String.data, ∀ c ∈ m, ¬ c = ',' := by
        intro m hm c hc he
        rcases List.mem_map.mp hm with ⟨u, hu, hum⟩
        exact (h u (by simp [hu])).1 (he ▸ hum ▸ hc)
      have hsplit :
          splitCommaChars (joinCS (t.data :: ts'.map String.data)) []
            = t.data :: (ts'.map String.data).map (fun m => ' ' :: m) := by
        rw [splitCommaChars_joinCS (ts'.map String.data) t.data [] hcf hcf2]
        simp
      have hps : pySplitComma (pyJoinCommaSpace (t :: ts'))
          = (t.data :: (ts'.map String.data).map (fun m => ' ' :: m)).map
              (fun cs => (⟨cs⟩ : String)) := by
        show (splitCommaChars (joinCS ((t :: ts').map String.data)) []).map
              (fun cs => (⟨cs⟩ : String))
            = (t.data :: (ts'.map String.data).map (fun m => ' ' :: m)).map
              (fun cs => (⟨cs⟩ : String))
        rw [List.map_cons] at *
        rw [hsplit]
      rw [hps]
      have hhead : pyStrip ⟨t.data⟩ = t := (h t (by simp)).2
      have htail :
          ((ts'.map String.data).map (fun m => ' ' :: m)).map
              (fun cs => pyStrip ⟨cs⟩) = ts' :=
        map_strip_spaced ts' (fun u hu => (h u (by simp [hu])).2)
      simp only [List.map_cons, List.map_map]
      simp only [List.map_map] at htail
      rw [Option.some_inj]
      exact List.cons_eq_cons.mpr ⟨hhead, htail⟩

/-! ## Generic list lemmas -/

theorem find?_key_map {α : Type} (k : α → Nat) (g : α → α)
    (hg : ∀ a, k (g a) = k a) :
    ∀ (l : List α) (x : α), (l.map k).Nodup → x ∈ l →
      (l.map g).find? (fun a => k a = k x) = Option.some (g x) := by
  intro l
  induction l with
  | nil => intro x _ hx; simp at hx
  | cons a t ih =>
      intro x hnd hx
      rw [List.map_cons] at hnd
      have hnd2 := List.nodup_cons.mp hnd
      rw [List.map_cons]
      by_cases hk : k a = k x
      · have hax : x = a := by
          rcases List.mem_cons.mp hx with h1 | h2
          · exact h1
          · exfalso
            have hmem : k x ∈ t.map k := List.mem_map.mpr ⟨x, h2, rfl⟩
            rw [← hk] at hmem
            exact hnd2.1 hmem
        rw [List.find?_cons_of_pos]
        · rw [hax]
        · have : k (g a) = k x := by rw [hg a]; exact hk
          exact decide_eq_true this
      · rw [List.find?_cons_of_neg]
        · refine ih x hnd2.2 ?_
          rcases List.mem_cons.mp hx with h1 | h2
          · exact absurd (by rw [h1]) hk
          · exact h2
        · have : ¬ k (g a) = k x := by rw [hg a]; exact hk
          simp [this]

theorem find?_id_of_mem {α : Type} (k : α → Nat) (l : List α) (x : α)
    (hnd : (l.map k).Nodup) (hx : x ∈ l) :
    l.find? (fun a => k a = k x) = Option.some x := by
  have h := find?_key_map k id (fun _ => rfl) l x hnd hx
  simpa using h

theorem mapM_option_of_forall {α β : Type} (f : α → Option β) (g : α → β) :
    ∀ (l : List α), (∀ a ∈ l, f a = Option.some (g a)) →
      l.mapM f = Option.some (l.map g) := by
  intro l
  induction l with
  | nil => intro _; rfl
  | cons a t ih =>
      intro h
      rw [List.mapM_cons, h a (by simp), ih (fun x hx => h x (by simp [hx]))]
      rfl

theorem filterMap_of_map_some {α β : Type} (f : α → Option β) :
    ∀ (l : List α) (m : List β),
      l.map f = m.map Option.some → l.filterMap f = m := by
  intro l
  induction l with
  | nil =>
      intro m h
      cases m with
      | nil => rfl
      | cons b bm => simp at h
  | cons a t ih =>
      intro m h
      cases m with
      | nil => simp at h
      | cons b bm =>
          rw [List.map_cons, List.map_cons] at h
          obtain ⟨h1, h2⟩ := List.cons_eq_cons.mp h
          rw [List.filterMap_cons, h1, ih bm h2]

theorem filter_filter_neg {α : Type} (p : α → Prop) [DecidablePred p] :
    ∀ (l : List α), (l.filter (fun a => ¬ p a)).filter (fun a => p a) = [] := by
  intro l
  induction l with
  | nil => rfl
  | cons a t ih =>
      by_cases hp : p a
      · simp only [List.filter_cons]
        simp [hp, ih]
      · simp only [List.filter_cons]
        simp [hp, ih]

/-! ## The skills loop -/

theorem get_or_create_spec (st : DB) (n : String) (hinv : SkInv st) :
    (get_or_create_skill st n).1.name = n
    ∧ (∃ ext, (get_or_create_skill st n).2.1.skills = st.skills ++ ext)
    ∧ (get_or_create_skill st n).1 ∈ (get_or_create_skill st n).2.1.skills
    ∧ SkInv (get_or_create_skill st n).2.1
    ∧ (get_or_create_skill st n).2.1.resumes = st.resumes
    ∧ (get_or_create_skill st n).2.1.personalInfos = st.personalInfos
    ∧ (get_or_create_skill st n).2.1.assoc = st.assoc
    ∧ (get_or_create_skill st n).2.1.workExperiences = st.workExperiences
    ∧ (get_or_create_skill st n).2.1.projects = st.projects
    ∧ (get_or_create_skill st n).2.1.educations = st.educations
    ∧ (get_or_create_skill st n).2.1.nextResumeId = st.nextResumeId
    ∧ (get_or_create_skill st n).2.1.nextPIId = st.nextPIId
    ∧ (get_or_create_skill st n).2.1.nextWorkId = st.nextWorkId
    ∧ (get_or_create_skill st n).2.1.nextProjectId = st.nextProjectId
    ∧ (get_or_create_skill st n).2.1.nextEducationId = st.nextEducationId := by
  cases hf : st.skills.find? (fun s => s.name = n) with
  | some s =>
      have hres : get_or_create_skill st n = (s, st, false) := by
        simp [get_or_create_skill, hf]
      rw [hres]
      have hname : s.name = n := by
        have h := List.find?_some hf
        simpa using h
      have hmem : s ∈ st.skills := List.mem_of_find?_eq_some hf
      exact ⟨hname, ⟨[], by simp⟩, hmem, hinv, rfl, rfl, rfl, rfl, rfl, rfl,
             rfl, rfl, rfl, rfl, rfl⟩
  | none =>
      have hres : get_or_create_skill st n
          = ({ id := st.nextSkillId, name := n },
             { st with skills := st.skills ++ [{ id := st.nextSkillId, name := n }],
                       nextSkillId := st.nextSkillId + 1 },
             true) := by
        simp [get_or_create_skill, hf]
      rw [hres]
      obtain ⟨hid, hnm, hlt⟩ := hinv
      have habsent : ∀ s ∈ st.skills, ¬ s.name = n := by
        intro s hs
        have := List.find?_eq_none.mp hf s hs
        simpa using this
      refine ⟨rfl, ⟨[{ id := st.nextSkillId, name := n }], rfl⟩,
              by simp, ⟨?_, ?_, ?_⟩, rfl, rfl, rfl, rfl, rfl, rfl,
              rfl, rfl, rfl, rfl, rfl⟩
      · rw [List.map_append, List.nodup_append]
        refine ⟨hid, by simp, ?_⟩
        intro i hi hj
        simp only [List.map_cons, List.map_nil, List.mem_singleton] at hj
        rcases List.mem_map.mp hi with ⟨s, hs, hsi⟩
        have := hlt s hs
        omega
      · rw [List.map_append, List.nodup_append]
        refine ⟨hnm, by simp, ?_⟩
        intro m hm hj
        simp only [List.map_cons, List.map_nil, List.mem_singleton] at hj
        rcases List.mem_map.mp hm with ⟨s, hs, hsm⟩
        exact habsent s hs (by rw [hsm, hj])
      · intro s hs
        show s.id < st.nextSkillId + 1
        rcases List.mem_append.mp hs with h1 | h2
        · have := hlt s h1; omega
        · simp only [List.mem_singleton] at h2
          rw [h2]
          exact Nat.lt_succ_self st.nextSkillId

theorem find?_skill_id (l : List SkillRow) (x : SkillRow)
    (hnd : (l.map (fun s => s.id)).Nodup) (hx : x ∈ l) :
    l.find? (fun s => s.id = x.id) = Option.some x := by
  have h := find?_id_of_mem (fun s => s.id) l x hnd hx
  simpa using h

theorem skillsLoop_spec (rid : Nat) :
    ∀ (l : List String) (st : DB), SkInv st →
      ∃ (pairs : List (Nat × Nat)) (rows : List SkillRow),
        (skillsLoop rid st l).1.assoc = st.assoc ++ pairs
        ∧ (∀ q ∈ pairs, q.1 = rid)
        ∧ pairs.map
            (fun a => (skillsLoop rid st l).1.skills.find? (fun s => s.id = a.2))
            = rows.map Option.some
        ∧ rows.map (fun s => s.name) = l
        ∧ SkInv (skillsLoop rid st l).1
        ∧ (∃ ext, (skillsLoop rid st l).1.skills = st.skills ++ ext)
        ∧ (skillsLoop rid st l).1.resumes = st.resumes
        ∧ (skillsLoop rid st l).1.personalInfos = st.personalInfos
        ∧ (skillsLoop rid st l).1.workExperiences = st.workExperiences
        ∧ (skillsLoop rid st l).1.projects = st.projects
        ∧ (skillsLoop rid st l).1.educations = st.educations
        ∧ (skillsLoop rid st l).1.nextResumeId = st.nextResumeId
        ∧ (skillsLoop rid st l).1.nextPIId = st.nextPIId
        ∧ (skillsLoop rid st l).1.nextWorkId = st.nextWorkId
        ∧ (skillsLoop rid st l).1.nextProjectId = st.nextProjectId
        ∧ (skillsLoop rid st l).1.nextEducationId = st.nextEducationId := by
  intro l
  induction l with
  | nil =>
      intro st hinv
      exact ⟨[], [], by simp [skillsLoop], by simp, rfl, rfl, hinv,
             ⟨[], by simp [skillsLoop]⟩,
             rfl, rfl, rfl, rfl, rfl, rfl, rfl, rfl, rfl, rfl⟩
  | cons n ns ih =>
      intro st hinv
      obtain ⟨hname, ⟨ext0, hext0⟩, hmem, hinv1, hres0, hpis0, hassoc0, hwork0,
              hproj0, hedu0, hnr0, hnpi0, hnw0, hnp0, hne0⟩ :=
        get_or_create_spec st n hinv
      let st2 : DB :=
        { (get_or_create_skill st n).2.1 with
            assoc := (get_or_create_skill st n).2.1.assoc
              ++ [(rid, (get_or_create_skill st n).1.id)] }
      have hred : (skillsLoop rid st (n :: ns)).1 = (skillsLoop rid st2 ns).1 := rfl
      have hinv2 : SkInv st2 := hinv1
      obtain ⟨pairs', rows', hassoc', hrid', hfind', hnames', hinv', ⟨ext', hext'⟩,
              hres', hpis', hwork', hproj', hedu', hnr', hnpi', hnw', hnp', hne'⟩ :=
        ih st2 hinv2
      refine ⟨(rid, (get_or_create_skill st n).1.id) :: pairs',
              (get_or_create_skill st n).1 :: rows',
              ?_, ?_, ?_, ?_, ?_, ?_, ?_, ?_, ?_, ?_, ?_, ?_, ?_, ?_, ?_, ?_⟩
      · rw [hred, hassoc']
        show ((get_or_create_skill st n).2.1.assoc
              ++ [(rid, (get_or_create_skill st n).1.id)]) ++ pairs'
            = st.assoc ++ (rid, (get_or_create_skill st n).1.id) :: pairs'
        rw [hassoc0]
        simp
      · intro q hq
        rcases List.mem_cons.mp hq with h1 | h2
        · rw [h1]
        · exact hrid' q h2
      · rw [hred]
        simp only [List.map_cons]
        refine List.cons_eq_cons.mpr ⟨?_, hfind'⟩
        have hmem2 : (get_or_create_skill st n).1 ∈ (skillsLoop rid st2 ns).1.skills := by
          rw [hext']
          exact List.mem_append_left _ hmem
        exact find?_skill_id _ _ hinv'.1 hmem2
      · simp only [List.map_cons]
        exact List.cons_eq_cons.mpr ⟨hname, hnames'⟩
      · rw [hred]; exact hinv'
      · rw [hred, hext']
        refine ⟨ext0 ++ ext', ?_⟩
        show (get_or_create_skill st n).2.1.skills ++ ext' = st.skills ++ (ext0 ++ ext')
        rw [hext0]
        simp
      · rw [hred, hres']; exact hres0
      · rw [hred, hpis']; exact hpis0
      · rw [hred, hwork']; exact hwork0
      · rw [hred, hproj']; exact hproj0
      · rw [hred, hedu']; exact hedu0
      · rw [hred, hnr']; exact hnr0
      · rw [hred, hnpi']; exact hnpi0
      · rw [hred, hnw']; exact hnw0
      · rw [hred, hnp']; exact hnp0
      · rw [hred, hne']; exact hne0

theorem buildWorkRows_filter (rid : Nat) :
    ∀ (l : List WorkExperienceData) (startId : Nat),
      (buildWorkRows startId rid l).filter (fun w => w.resume_id = rid)
        = buildWorkRows startId rid l := by
  intro l
  induction l with
  | nil => intro startId; rfl
  | cons w ws ih =>
      intro startId
      simp only [buildWorkRows, List.filter_cons]
      rw [ih (startId + 1)]
      simp

theorem buildWorkRows_map (rid : Nat) :
    ∀ (l : List WorkExperienceData) (startId : Nat),
      (buildWorkRows startId rid l).map toWorkData = l := by
  intro l
  induction l with
  | nil => intro startId; rfl
  | cons w ws ih =>
      intro startId
      simp only [buildWorkRows, List.map_cons]
      rw [ih (startId + 1)]
      rfl

theorem buildProjectRows_filter (rid : Nat) :
    ∀ (l : List ProjectData) (startId : Nat),
      (buildProjectRows startId rid l).filter (fun p => p.resume_id = rid)
        = buildProjectRows startId rid l := by
  intro l
  induction l with
  | nil => intro startId; rfl
  | cons p ps ih =>
      intro startId
      simp only [buildProjectRows, List.filter_cons]
      rw [ih (startId + 1)]
      simp

theorem buildProjectRows_map_fields (rid : Nat) :
    ∀ (l : List ProjectData) (startId : Nat),
      (buildProjectRows startId rid l).map
          (fun r => (r.name, r.description, r.technologies))
        = l.map (fun p => (p.name, p.description, joinTech p.technologies)) := by
  intro l
  induction l with
  | nil => intro startId; rfl
  | cons p ps ih =>
      intro startId
      simp only [buildProjectRows, List.map_cons]
      rw [ih (startId + 1)]

theorem buildProjectRows_map_round (rid : Nat) :
    ∀ (l : List ProjectData) (startId : Nat),
      (∀ p ∈ l, ∀ ts, p.technologies = Option.some ts →
          ¬ ts = [] ∧ ∀ t ∈ ts, (¬ ',' ∈ t.data) ∧ pyStrip t = t) →
      (buildProjectRows startId rid l).map toProjectData = l := by
  intro l
  induction l with
  | nil => intro startId _; rfl
  | cons p ps ih =>
      intro startId h
      simp only [buildProjectRows, List.map_cons]
      rw [ih (startId + 1) (fun q hq => h q (by simp [hq]))]
      have hhead : toProjectData
          { id := startId, resume_id := rid, name := p.name,
            description := p.description, technologies := joinTech p.technologies }
          = p := by
        have hsplit : split_technologies (joinTech p.technologies) = p.technologies := by
          cases htech : p.technologies with
          | none => rfl
          | some ts =>
              obtain ⟨hne, hts⟩ := h p (by simp) ts htech
              exact tech_roundtrip ts hne hts
        show ({ name := p.name, description := p.description,
                technologies := split_technologies (joinTech p.technologies) } : ProjectData) = p
        rw [hsplit]
      rw [hhead]

theorem buildEducationRows_filter (rid : Nat) :
    ∀ (l : List EducationData) (startId : Nat),
      (buildEducationRows startId rid l).filter (fun e => e.resume_id = rid)
        = buildEducationRows startId rid l := by
  intro l
  induction l with
  | nil => intro startId; rfl
  | cons e es ih =>
      intro startId
      simp only [buildEducationRows, List.filter_cons]
      rw [ih (startId + 1)]
      simp

theorem buildEducationRows_map (rid : Nat) :
    ∀ (l : List EducationData) (startId : Nat),
      (buildEducationRows startId rid l).map toEducationData = l := by
  intro l
  induction l with
  | nil => intro startId; rfl
  | cons e es ih =>
      intro startId
      simp only [buildEducationRows, List.map_cons]
      rw [ih (startId + 1)]
      rfl

theorem upsertTail_spec (rid : Nat) (st0 : DB) (rd : ResumeData) (hinv : SkInv st0) :
    ∃ (pairs : List (Nat × Nat)) (rows : List SkillRow),
      (upsertTail rid st0 rd).1.assoc = st0.assoc ++ pairs
      ∧ (∀ q ∈ pairs, q.1 = rid)
      ∧ pairs.map
          (fun a => (upsertTail rid st0 rd).1.skills.find? (fun s => s.id = a.2))
          = rows.map Option.some
      ∧ rows.map (fun s => s.name) = skillNamesOf rd
      ∧ SkInv (upsertTail rid st0 rd).1
      ∧ (∃ ext, (upsertTail rid st0 rd).1.skills = st0.skills ++ ext)
      ∧ (upsertTail rid st0 rd).1.resumes = st0.resumes
      ∧ (upsertTail rid st0 rd).1.personalInfos = st0.personalInfos
      ∧ (upsertTail rid st0 rd).1.workExperiences
          = st0.workExperiences ++ buildWorkRows st0.nextWorkId rid rd.work_experience
      ∧ (upsertTail rid st0 rd).1.projects
          = st0.projects ++ buildProjectRows st0.nextProjectId rid rd.projects
      ∧ (upsertTail rid st0 rd).1.educations
          = st0.educations ++ buildEducationRows st0.nextEducationId rid rd.education := by
  cases hsk : rd.skills with
  | none =>
      have hred : (upsertTail rid st0 rd).1
          = appendEducations rid
              (appendProjects rid (appendWork rid st0 rd.work_experience) rd.projects)
              rd.education := by
        simp [upsertTail, hsk]
      rw [hred]
      exact ⟨[], [], by simp [appendWork, appendProjects, appendEducations],
             by simp, rfl, by simp [skillNamesOf, hsk], hinv,
             ⟨[], by simp [appendWork, appendProjects, appendEducations]⟩,
             rfl, rfl, rfl, rfl, rfl⟩
  | some l =>
      cases l with
      | nil =>
          have hred : (upsertTail rid st0 rd).1
              = appendEducations rid
                  (appendProjects rid (appendWork rid st0 rd.work_experience) rd.projects)
                  rd.education := by
            simp [upsertTail, hsk]
          rw [hred]
          exact ⟨[], [], by simp [appendWork, appendProjects, appendEducations],
                 by simp, rfl, by simp [skillNamesOf, hsk], hinv,
                 ⟨[], by simp [appendWork, appendProjects, appendEducations]⟩,
                 rfl, rfl, rfl, rfl, rfl⟩
      | cons x xs =>
          have hred : (upsertTail rid st0 rd).1
              = appendEducations rid
                  (appendProjects rid
                    (appendWork rid (skillsLoop rid st0 (x :: xs)).1 rd.work_experience)
                    rd.projects)
                  rd.education := by
            simp [upsertTail, hsk]
          obtain ⟨pairs, rows, hassoc, hrid, hfind, hnames, hinv1, ⟨ext, hext⟩,
                  hres, hpis, hwork, hproj, hedu, hnr, hnpi, hnw, hnp, hne⟩ :=
            skillsLoop_spec rid (x :: xs) st0 hinv
          rw [hred]
          refine ⟨pairs, rows, hassoc, hrid, hfind, ?_, hinv1, ⟨ext, hext⟩,
                  hres, hpis, ?_, ?_, ?_⟩
          · rw [hnames]; simp [skillNamesOf, hsk]
          · show (skillsLoop rid st0 (x :: xs)).1.workExperiences
                ++ buildWorkRows (skillsLoop rid st0 (x :: xs)).1.nextWorkId rid
                    rd.work_experience
                = st0.workExperiences ++ buildWorkRows st0.nextWorkId rid rd.work_experience
            rw [hwork, hnw]
          · show (skillsLoop rid st0 (x :: xs)).1.projects
                ++ buildProjectRows (skillsLoop rid st0 (x :: xs)).1.nextProjectId rid
                    rd.projects
                = st0.projects ++ buildProjectRows st0.nextProjectId rid rd.projects
            rw [hproj, hnp]
          · show (skillsLoop rid st0 (x :: xs)).1.educations
                ++ buildEducationRows (skillsLoop rid st0 (x :: xs)).1.nextEducationId rid
                    rd.education
                = st0.educations ++ buildEducationRows st0.nextEducationId rid rd.education
            rw [hedu, hne]

theorem skillsLoop_skills_ext (rid : Nat) :
    ∀ (l : List String) (st : DB),
      ∃ ext, (skillsLoop rid st l).1.skills = st.skills ++ ext := by
  intro l
  induction l with
  | nil => intro st; exact ⟨[], by simp [skillsLoop]⟩
  | cons n ns ih =>
      intro st
      simp only [skillsLoop]
      cases hf : st.skills.find? (fun s => s.name = n) with
      | some s =>
          simp only [get_or_create_skill, hf]
          exact ih _
      | none =>
          simp only [get_or_create_skill, hf]
          obtain ⟨ext, hext⟩ := ih
            { st with
                skills := st.skills ++ [{ id := st.nextSkillId, name := n }],
                nextSkillId := st.nextSkillId + 1,
                assoc := st.assoc ++ [(rid, st.nextSkillId)] }
          refine ⟨{ id := st.nextSkillId, name := n } :: ext, ?_⟩
          rw [hext]
          simp

/-! ## Identity resolution lemmas -/

theorem map_key_of_preserve {α : Type} (f : α → α) (k : α → Nat)
    (hf : ∀ a, k (f a) = k a) :
    ∀ (l : List α), (l.map f).map k = l.map k := by
  intro l
  induction l with
  | nil => rfl
  | cons a t ih => simp only [List.map_cons, ih, hf]

theorem resolveTarget_mem (db : DB) (rd : ResumeData) (pi : PersonalInfoRow)
    (h : resolveTarget db rd = Option.some pi) : pi ∈ db.personalInfos := by
  simp only [resolveTarget] at h
  split at h
  · next pi' heq =>
      rw [Option.some_inj] at h
      subst h
      by_cases ht : truthy rd.personal_info.email = true
      · rw [if_pos ht] at heq
        exact List.mem_of_find?_eq_some heq
      · rw [if_neg ht] at heq
        exact absurd heq (by simp)
  · by_cases ht : truthy rd.personal_info.phone = true
    · rw [if_pos ht] at h
      exact List.mem_of_find?_eq_some h
    · rw [if_neg ht] at h
      exact absurd h (by simp)

theorem byEmail_none (db : DB) (rd : ResumeData) (h : ¬ EmailResolves db rd) :
    (if truthy rd.personal_info.email then
        db.personalInfos.find? (fun p => p.email = rd.personal_info.email)
      else Option.none) = Option.none := by
  by_cases ht : truthy rd.personal_info.email = true
  · rw [if_pos ht]
    cases hf : db.personalInfos.find? (fun p => p.email = rd.personal_info.email) with
    | none => rfl
    | some pi =>
        exfalso
        apply h
        refine ⟨ht, pi, List.mem_of_find?_eq_some hf, ?_⟩
        have := List.find?_some hf
        simpa using this
  · rw [if_neg ht]

theorem resolveTarget_none (db : DB) (rd : ResumeData)
    (he : ¬ EmailResolves db rd) (hp : ¬ PhoneResolves db rd) :
    resolveTarget db rd = Option.none := by
  simp only [resolveTarget]
  rw [byEmail_none db rd he]
  by_cases ht : truthy rd.personal_info.phone = true
  · rw [if_pos ht]
    cases hf : db.personalInfos.find? (fun p => p.phone = rd.personal_info.phone) with
    | none => rfl
    | some pi =>
        exfalso
        apply hp
        refine ⟨ht, pi, List.mem_of_find?_eq_some hf, ?_⟩
        have := List.find?_some hf
        simpa using this
  · rw [if_neg ht]

theorem SkInv_of_WF (db : DB) (hwf : db.WF) : SkInv db :=
  ⟨hwf.2.2.2.2.2.2.2.1, hwf.2.2.2.2.2.2.2.2.1, hwf.2.2.2.2.2.2.2.2.2.1⟩

theorem updR_id_preserve (rid : Nat) (s : Option String) :
    ∀ r : ResumeRow,
      (if r.id = rid then { r with summary := s } else r).id = r.id := by
  intro r
  by_cases h : r.id = rid
  · rw [if_pos h]
  · rw [if_neg h]

/-! ## Claim theorems -/

/-- C1: identity resolution of the upsert.  If the incoming email is a
non-empty string and a stored PersonalInfo matches it exactly, that row's
owning resume is the update target (and no new resume row appears);
otherwise, if the incoming phone is non-empty and a stored PersonalInfo
matches it, that row's owning resume is the target; otherwise — which
includes an empty-string email or phone, since truthiness treats `""` as
absent, and rows with a NULL email, which an exact-match lookup can never
hit — a brand-new resume with a fresh id is created. -/
theorem c1_identity_resolution (db : DB) (rd : ResumeData) (hwf : db.WF) :
    (∀ pi, truthy rd.personal_info.email = true →
        db.personalInfos.find? (fun p => p.email = rd.personal_info.email)
            = Option.some pi →
        (createOrUpdateFull db rd).rid = pi.resume_id
          ∧ (createOrUpdateFull db rd).db.resumes.map (fun r => r.id)
              = db.resumes.map (fun r => r.id))
    ∧ (∀ pi, ¬ EmailResolves db rd → truthy rd.personal_info.phone = true →
        db.personalInfos.find? (fun p => p.phone = rd.personal_info.phone)
            = Option.some pi →
        (createOrUpdateFull db rd).rid = pi.resume_id
          ∧ (createOrUpdateFull db rd).db.resumes.map (fun r => r.id)
              = db.resumes.map (fun r => r.id))
    ∧ (¬ EmailResolves db rd → ¬ PhoneResolves db rd →
        (createOrUpdateFull db rd).rid = db.nextResumeId
          ∧ (∀ r ∈ db.resumes, ¬ r.id = (createOrUpdateFull db rd).rid)
          ∧ (createOrUpdateFull db rd).db.resumes.map (fun r => r.id)
              = db.resumes.map (fun r => r.id) ++ [db.nextResumeId]) := by
  have hupd : ∀ pi : PersonalInfoRow, resolveTarget db rd = Option.some pi →
      (createOrUpdateFull db rd).rid = pi.resume_id
        ∧ (createOrUpdateFull db rd).db.resumes.map (fun r => r.id)
            = db.resumes.map (fun r => r.id) := by
    intro pi hres
    have hinv0 : SkInv (updateHead db rd pi) := SkInv_of_WF db hwf
    obtain ⟨pairs, rows, h1, h2, h3, h4, h5, h6, h7, h8, h9, h10, h11⟩ :=
      upsertTail_spec pi.resume_id (updateHead db rd pi) rd hinv0
    constructor
    · simp only [createOrUpdateFull, hres]
    · simp only [createOrUpdateFull, hres]
      rw [h7]
      show (db.resumes.map (fun r =>
          if r.id = pi.resume_id then { r with summary := rd.summary } else r)).map
            (fun r => r.id)
          = db.resumes.map (fun r => r.id)
      exact map_key_of_preserve _ _ (updR_id_preserve pi.resume_id rd.summary) db.resumes
  refine ⟨?_, ?_, ?_⟩
  · intro pi ht hf
    apply hupd pi
    simp only [resolveTarget]
    rw [if_pos ht, hf]
  · intro pi hne ht hf
    apply hupd pi
    simp only [resolveTarget]
    rw [byEmail_none db rd hne]
    show (if truthy rd.personal_info.phone = true then
        db.personalInfos.find? (fun p => p.phone = rd.personal_info.phone)
      else Option.none) = Option.some pi
    rw [if_pos ht, hf]
  · intro hne hnp
    have hres := resolveTarget_none db rd hne hnp
    have hinv0 : SkInv (createHead db rd) := SkInv_of_WF db hwf
    obtain ⟨pairs, rows, h1, h2, h3, h4, h5, h6, h7, h8, h9, h10, h11⟩ :=
      upsertTail_spec db.nextResumeId (createHead db rd) rd hinv0
    refine ⟨by simp only [createOrUpdateFull, hres], ?_, ?_⟩
    · intro r hr
      simp only [createOrUpdateFull, hres]
      have := hwf.2.1 r hr
      omega
    · simp only [createOrUpdateFull, hres]
      rw [h7]
      show (db.resumes ++ [({ id := db.nextResumeId, summary := Option.none } : ResumeRow)]).map
            (fun r => r.id)
          = db.resumes.map (fun r => r.id) ++ [db.nextResumeId]
      simp

/-- Witness for C1: in the store holding the `a@x.com` resume, upserting
a second record with the same email targets resume 1 and creates no new
resume row. -/
theorem c1_identity_resolution_check :
    (createOrUpdateFull dbScenario rdScenarioB).rid = piRowA.resume_id
      ∧ (createOrUpdateFull dbScenario rdScenarioB).db.resumes.map (fun r => r.id)
          = dbScenario.resumes.map (fun r => r.id) :=
  (c1_identity_resolution dbScenario rdScenarioB (by decide)).1 piRowA
    (by decide) (by decide)

/-- C2: the update path is a full replace.  When identity resolution finds
a stored PersonalInfo `pi`, the upsert targets `pi.resume_id`; afterwards
the WorkExperience, Project and Education rows of that resume are exactly
the incoming lists in input order (projects carrying the serialized
technologies value), the linked skill names are exactly the incoming skill
names, the summary and every PersonalInfo scalar equal the incoming values
unconditionally (`None` overwrites), and no resume row is added. -/
theorem c2_update_full_replace (db : DB) (rd : ResumeData) (pi : PersonalInfoRow)
    (hwf : db.WF) (hres : resolveTarget db rd = Option.some pi) :
    (createOrUpdateFull db rd).rid = pi.resume_id
    ∧ ((createOrUpdateFull db rd).db.workExperiences.filter
        (fun w => w.resume_id = pi.resume_id)).map toWorkData = rd.work_experience
    ∧ ((createOrUpdateFull db rd).db.projects.filter
        (fun p => p.resume_id = pi.resume_id)).map
          (fun r => (r.name, r.description, r.technologies))
        = rd.projects.map (fun p => (p.name, p.description, joinTech p.technologies))
    ∧ ((createOrUpdateFull db rd).db.educations.filter
        (fun e => e.resume_id = pi.resume_id)).map toEducationData = rd.education
    ∧ memberSkillNames (createOrUpdateFull db rd).db pi.resume_id = skillNamesOf rd
    ∧ (createOrUpdateFull db rd).db.resumes.find? (fun r => r.id = pi.resume_id)
        = Option.some { id := pi.resume_id, summary := rd.summary }
    ∧ (createOrUpdateFull db rd).db.personalInfos.find? (fun q => q.id = pi.id)
        = Option.some { id := pi.id, resume_id := pi.resume_id,
                        name := rd.personal_info.name,
                        email := rd.personal_info.email,
                        phone := rd.personal_info.phone,
                        location := rd.personal_info.location,
                        linkedin_url := rd.personal_info.linkedin_url }
    ∧ (createOrUpdateFull db rd).db.resumes.map (fun r => r.id)
        = db.resumes.map (fun r => r.id) := by
  have hinv0 : SkInv (updateHead db rd pi) := SkInv_of_WF db hwf
  obtain ⟨pairs, rows, h1, h2, h3, h4, h5, h6, h7, h8, h9, h10, h11⟩ :=
    upsertTail_spec pi.resume_id (updateHead db rd pi) rd hinv0
  have hpimem : pi ∈ db.personalInfos := resolveTarget_mem db rd pi hres
  refine ⟨by simp only [createOrUpdateFull, hres], ?_, ?_, ?_, ?_, ?_, ?_, ?_⟩
  · simp only [createOrUpdateFull, hres]
    rw [h9, List.filter_append]
    have hold : ((updateHead db rd pi).workExperiences).filter
        (fun w => w.resume_id = pi.resume_id) = [] := by
      show ((db.workExperiences.filter (fun w => ¬ w.resume_id = pi.resume_id)).filter
          (fun w => w.resume_id = pi.resume_id)) = []
      exact filter_filter_neg _ db.workExperiences
    rw [hold, List.nil_append, buildWorkRows_filter, buildWorkRows_map]
  · simp only [createOrUpdateFull, hres]
    rw [h10, List.filter_append]
    have hold : ((updateHead db rd pi).projects).filter
        (fun p => p.resume_id = pi.resume_id) = [] := by
      show ((db.projects.filter (fun p => ¬ p.resume_id = pi.resume_id)).filter
          (fun p => p.resume_id = pi.resume_id)) = []
      exact filter_filter_neg _ db.projects
    rw [hold, List.nil_append, buildProjectRows_filter, buildProjectRows_map_fields]
  · simp only [createOrUpdateFull, hres]
    rw [h11, List.filter_append]
    have hold : ((updateHead db rd pi).educations).filter
        (fun e => e.resume_id = pi.resume_id) = [] := by
      show ((db.educations.filter (fun e => ¬ e.resume_id = pi.resume_id)).filter
          (fun e => e.resume_id = pi.resume_id)) = []
      exact filter_filter_neg _ db.educations
    rw [hold, List.nil_append, buildEducationRows_filter, buildEducationRows_map]
  · simp only [createOrUpdateFull, hres]
    unfold memberSkillNames
    rw [h1, List.filter_append]
    have hold : ((updateHead db rd pi).assoc).filter (fun a => a.1 = pi.resume_id) = [] := by
      show ((db.assoc.filter (fun a => ¬ a.1 = pi.resume_id)).filter
          (fun a => a.1 = pi.resume_id)) = []
      exact filter_filter_neg _ db.assoc
    have hpair : pairs.filter (fun a => a.1 = pi.resume_id) = pairs :=
      List.filter_eq_self.mpr (fun q hq => decide_eq_true (h2 q hq))
    rw [hold, hpair]
    have hfm := filterMap_of_map_some
      (fun a => (upsertTail pi.resume_id (updateHead db rd pi) rd).1.skills.find?
        (fun s => s.id = a.2)) pairs rows h3
    rw [List.nil_append, hfm, h4]
  · simp only [createOrUpdateFull, hres]
    rw [h7]
    obtain ⟨r, hrmem, hpr⟩ := hwf.2.2.2.2.2.1 pi hpimem
    rw [hpr]
    have hfind := find?_key_map (fun r : ResumeRow => r.id)
      (fun r => if r.id = pi.resume_id then { r with summary := rd.summary } else r)
      (updR_id_preserve pi.resume_id rd.summary) db.resumes r hwf.1 hrmem
    show (db.resumes.map (fun r =>
        if r.id = pi.resume_id then { r with summary := rd.summary } else r)).find?
          (fun a => a.id = r.id)
        = Option.some { id := r.id, summary := rd.summary }
    rw [hfind]
    simp [hpr]
  · simp only [createOrUpdateFull, hres]
    rw [h8]
    have hfind := find?_key_map (fun q : PersonalInfoRow => q.id)
      (fun q => if q.id = pi.id then
          { q with name := rd.personal_info.name,
                   email := rd.personal_info.email,
                   phone := rd.personal_info.phone,
                   location := rd.personal_info.location,
                   linkedin_url := rd.personal_info.linkedin_url }
        else q)
      (by
        intro q
        by_cases h : q.id = pi.id <;> simp [h])
      db.personalInfos pi hwf.2.2.1 hpimem
    show (db.personalInfos.map (fun q => if q.id = pi.id then
          { q with name := rd.personal_info.name,
                   email := rd.personal_info.email,
                   phone := rd.personal_info.phone,
                   location := rd.personal_info.location,
                   linkedin_url := rd.personal_info.linkedin_url }
        else q)).find? (fun a => a.id = pi.id)
        = Option.some { id := pi.id, resume_id := pi.resume_id,
                        name := rd.personal_info.name,
                        email := rd.personal_info.email,
                        phone := rd.personal_info.phone,
                        location := rd.personal_info.location,
                        linkedin_url := rd.personal_info.linkedin_url }
    rw [hfind]
    simp
  · simp only [createOrUpdateFull, hres]
    rw [h7]
    show (db.resumes.map (fun r =>
        if r.id = pi.resume_id then { r with summary := rd.summary } else r)).map
          (fun r => r.id)
        = db.resumes.map (fun r => r.id)
    exact map_key_of_preserve _ _ (updR_id_preserve pi.resume_id rd.summary) db.resumes

/-- Witness for C2: replaying the §8 scenario, the second upsert leaves
resume 1 with skill set `["Rust"]`, the new single work experience, and
the overwritten summary. -/
theorem c2_update_full_replace_check :
    memberSkillNames (createOrUpdateFull dbScenario rdScenarioB).db 1 = ["Rust"]
      ∧ ((createOrUpdateFull dbScenario rdScenarioB).db.workExperiences.filter
          (fun w => w.resume_id = 1)).map toWorkData = rdScenarioB.work_experience
      ∧ (createOrUpdateFull dbScenario rdScenarioB).db.resumes.find?
          (fun r => r.id = 1)
          = Option.some { id := 1, summary := Option.some "s2" } := by
  have h := c2_update_full_replace dbScenario rdScenarioB piRowA (by decide) (by decide)
  exact ⟨h.2.2.2.2.1, h.2.1, h.2.2.2.2.2.1⟩

/-- C3: the upsert is NOT atomic.  `get_or_create_skill` calls
`db.commit()` (crud.py line 10) whenever it creates a skill, so an update
that both clears child rows and introduces a new skill name commits twice:
the first committed snapshot already has the target's work-experience rows
deleted (and the summary and personal info overwritten) while the new rows
are not yet stored — a visible half-updated state, contradicting the
claimed single-transaction behaviour.  Concretely, upserting `rdScenarioB`
(fresh skill `Rust`) over the stored `a@x.com` resume commits twice, and
the first snapshot differs from both the initial and the final state and
holds no work-experience row for resume 1. -/
theorem c3_intermediate_commit :
    (createOrUpdateFull dbScenario rdScenarioB).commits.length = 2
    ∧ ((createOrUpdateFull dbScenario rdScenarioB).commits.getD 0 emptyDB).workExperiences.filter
        (fun w => w.resume_id = 1) = []
    ∧ (dbScenario.workExperiences.filter (fun w => w.resume_id = 1)).length = 1
    ∧ ((createOrUpdateFull dbScenario rdScenarioB).db.workExperiences.filter
        (fun w => w.resume_id = 1)).length = 1
    ∧ ¬ (createOrUpdateFull dbScenario rdScenarioB).commits.getD 0 emptyDB = dbScenario
    ∧ ¬ (createOrUpdateFull dbScenario rdScenarioB).commits.getD 0 emptyDB
        = (createOrUpdateFull dbScenario rdScenarioB).db := by
  decide

theorem upsert_assoc_spec (db : DB) (rd : ResumeData) (hwf : db.WF) :
    ((createOrUpdateFull db rd).db.assoc.filter
        (fun a => a.1 = (createOrUpdateFull db rd).rid)).length
      = (skillNamesOf rd).length
    ∧ memberSkillNames (createOrUpdateFull db rd).db (createOrUpdateFull db rd).rid
        = skillNamesOf rd
    ∧ ((createOrUpdateFull db rd).db.skills.map (fun s => s.name)).Nodup := by
  obtain ⟨hRnd, hRlt, hPnd, hPlt, hPrnd, hPref, hRpi, hSnd, hSnnd, hSlt,
          hWref, hJref, hEref, hAref, hTech⟩ := hwf
  cases hres : resolveTarget db rd with
  | some pi =>
      have hinv0 : SkInv (updateHead db rd pi) := ⟨hSnd, hSnnd, hSlt⟩
      obtain ⟨pairs, rows, h1, h2, h3, h4, h5, h6, h7, h8, h9, h10, h11⟩ :=
        upsertTail_spec pi.resume_id (updateHead db rd pi) rd hinv0
      have hold : (updateHead db rd pi).assoc.filter
          (fun a => a.1 = pi.resume_id) = [] := by
        show ((db.assoc.filter (fun a => ¬ a.1 = pi.resume_id)).filter
            (fun a => a.1 = pi.resume_id)) = []
        exact filter_filter_neg _ db.assoc
      have hpair : pairs.filter (fun a => a.1 = pi.resume_id) = pairs :=
        List.filter_eq_self.mpr (fun q hq => decide_eq_true (h2 q hq))
      simp only [createOrUpdateFull, hres]
      refine ⟨?_, ?_, ?_⟩
      · rw [h1, List.filter_append, hold, hpair, List.nil_append]
        have hl1 : pairs.length = rows.length := by
          have hc := congrArg List.length h3
          simpa using hc
        have hl2 : rows.length = (skillNamesOf rd).length := by
          have hc := congrArg List.length h4
          simpa using hc
        rw [hl1, hl2]
      · unfold memberSkillNames
        rw [h1, List.filter_append, hold, hpair, List.nil_append]
        rw [filterMap_of_map_some _ pairs rows h3, h4]
      · exact h5.2.1
  | none =>
      have hinv0 : SkInv (createHead db rd) := ⟨hSnd, hSnnd, hSlt⟩
      obtain ⟨pairs, rows, h1, h2, h3, h4, h5, h6, h7, h8, h9, h10, h11⟩ :=
        upsertTail_spec db.nextResumeId (createHead db rd) rd hinv0
      have hold : (createHead db rd).assoc.filter
          (fun a => a.1 = db.nextResumeId) = [] := by
        show db.assoc.filter (fun a => a.1 = db.nextResumeId) = []
        apply List.filter_eq_nil_iff.mpr
        intro a ha
        obtain ⟨⟨r, hr, har⟩, _⟩ := hAref a ha
        have hlt := hRlt r hr
        simp only [decide_eq_true_eq]
        omega
      have hpair : pairs.filter (fun a => a.1 = db.nextResumeId) = pairs :=
        List.filter_eq_self.mpr (fun q hq => decide_eq_true (h2 q hq))
      simp only [createOrUpdateFull, hres]
      refine ⟨?_, ?_, ?_⟩
      · rw [h1, List.filter_append, hold, hpair, List.nil_append]
        have hl1 : pairs.length = rows.length := by
          have hc := congrArg List.length h3
          simpa using hc
        have hl2 : rows.length = (skillNamesOf rd).length := by
          have hc := congrArg List.length h4
          simpa using hc
        rw [hl1, hl2]
      · unfold memberSkillNames
        rw [h1, List.filter_append, hold, hpair, List.nil_append]
        rw [filterMap_of_map_some _ pairs rows h3, h4]
      · exact h5.2.1

/-- C4 counterexample: upserting a record listing `Go` twice into a fresh
store creates the skill entity once, but the association table receives
TWO `(1, 1)` membership rows — the relationship collection is a plain
list, not a set, so duplicates do not collapse; the skill is not contained
"exactly once" in the membership. -/
theorem c4_duplicate_membership_refuted :
    (createOrUpdateFull emptyDB rdGoGo).db.skills = [{ id := 1, name := "Go" }]
    ∧ (createOrUpdateFull emptyDB rdGoGo).db.assoc = [(1, 1), (1, 1)]
    ∧ ¬ ((createOrUpdateFull emptyDB rdGoGo).db.assoc.filter
        (fun a => a = (1, 1))).length = 1 := by
  decide

/-- C4 amended: the skill-membership collection receives exactly one
association entry per occurrence in the incoming skills list (duplicate
names yield duplicate membership entries, in list order), while the skill
entities themselves remain deduplicated by name; the member names read
back are exactly the incoming list, duplicates included. -/
theorem c4_membership_per_occurrence (db : DB) (rd : ResumeData) (hwf : db.WF) :
    ((createOrUpdateFull db rd).db.assoc.filter
        (fun a => a.1 = (createOrUpdateFull db rd).rid)).length
      = (skillNamesOf rd).length
    ∧ memberSkillNames (createOrUpdateFull db rd).db (createOrUpdateFull db rd).rid
        = skillNamesOf rd
    ∧ ((createOrUpdateFull db rd).db.skills.map (fun s => s.name)).Nodup :=
  upsert_assoc_spec db rd hwf

/-- Witness for the amended C4 at the duplicate-skills input. -/
theorem c4_membership_per_occurrence_check :
    ((createOrUpdateFull emptyDB rdGoGo).db.assoc.filter
        (fun a => a.1 = (createOrUpdateFull emptyDB rdGoGo).rid)).length
      = (skillNamesOf rdGoGo).length
    ∧ memberSkillNames (createOrUpdateFull emptyDB rdGoGo).db
        (createOrUpdateFull emptyDB rdGoGo).rid
        = skillNamesOf rdGoGo
    ∧ ((createOrUpdateFull emptyDB rdGoGo).db.skills.map (fun s => s.name)).Nodup :=
  c4_membership_per_occurrence emptyDB rdGoGo (by decide)

theorem upsertTail_skills_ext (rid : Nat) (st0 : DB) (rd : ResumeData) :
    ∃ ext, (upsertTail rid st0 rd).1.skills = st0.skills ++ ext := by
  cases hsk : rd.skills with
  | none =>
      refine ⟨[], ?_⟩
      have hred : (upsertTail rid st0 rd).1
          = appendEducations rid
              (appendProjects rid (appendWork rid st0 rd.work_experience) rd.projects)
              rd.education := by
        simp [upsertTail, hsk]
      rw [hred]
      simp [appendWork, appendProjects, appendEducations]
  | some l =>
      cases l with
      | nil =>
          refine ⟨[], ?_⟩
          have hred : (upsertTail rid st0 rd).1
              = appendEducations rid
                  (appendProjects rid (appendWork rid st0 rd.work_experience) rd.projects)
                  rd.education := by
            simp [upsertTail, hsk]
          rw [hred]
          simp [appendWork, appendProjects, appendEducations]
      | cons x xs =>
          have hred : (upsertTail rid st0 rd).1
              = appendEducations rid
                  (appendProjects rid
                    (appendWork rid (skillsLoop rid st0 (x :: xs)).1 rd.work_experience)
                    rd.projects)
                  rd.education := by
            simp [upsertTail, hsk]
          obtain ⟨ext, hext⟩ := skillsLoop_skills_ext rid (x :: xs) st0
          refine ⟨ext, ?_⟩
          rw [hred]
          exact hext

/-- C5: skills are shared, case-sensitively deduplicated, and never
deleted.  `get_or_create_skill` reuses an existing row with exactly the
requested name and creates one only on first use; the upsert only ever
appends to the skills table; under the store invariants skill names stay
unique after any upsert; deleting a resume removes its owned
PersonalInfo/WorkExperience/Project/Education rows and its membership
entries but leaves every Skill row in place; and two resumes both listing
"Python" are linked to the same skill entity, which survives deleting one
of them. -/
theorem c5_skills_shared_lifecycle :
    (∀ (st : DB) (n : String),
        (get_or_create_skill st n).1.name = n
        ∧ ((∃ s ∈ st.skills, s.name = n) → (get_or_create_skill st n).2.1 = st)
        ∧ ((¬ ∃ s ∈ st.skills, s.name = n) →
            (get_or_create_skill st n).2.1.skills
              = st.skills ++ [{ id := st.nextSkillId, name := n }]))
    ∧ (∀ (db : DB) (rd : ResumeData),
        ∃ ext, (createOrUpdateFull db rd).db.skills = db.skills ++ ext)
    ∧ (∀ (db : DB) (rid : Nat) (db2 : DB), delete_resume db rid = Option.some db2 →
        db2.skills = db.skills
        ∧ db2.personalInfos = db.personalInfos.filter (fun p => ¬ p.resume_id = rid)
        ∧ db2.workExperiences = db.workExperiences.filter (fun w => ¬ w.resume_id = rid)
        ∧ db2.projects = db.projects.filter (fun p => ¬ p.resume_id = rid)
        ∧ db2.educations = db.educations.filter (fun e => ¬ e.resume_id = rid)
        ∧ db2.assoc = db.assoc.filter (fun a => ¬ a.1 = rid))
    ∧ (∀ (db : DB) (rd : ResumeData), db.WF →
        ((createOrUpdateFull db rd).db.skills.map (fun s => s.name)).Nodup)
    ∧ (dbPythonTwice.skills = [{ id := 1, name := "Python" }]
        ∧ dbPythonTwice.assoc = [(1, 1), (2, 1)]
        ∧ (delete_resume dbPythonTwice 1).map (fun d => d.skills)
            = Option.some [{ id := 1, name := "Python" }]
        ∧ (delete_resume dbPythonTwice 1).map (fun d => d.assoc)
            = Option.some [(2, 1)]) := by
  refine ⟨?_, ?_, ?_, ?_, by decide⟩
  · intro st n
    cases hf : st.skills.find? (fun s => s.name = n) with
    | some s =>
        have hres : get_or_create_skill st n = (s, st, false) := by
          simp [get_or_create_skill, hf]
        rw [hres]
        have hname : s.name = n := by
          have h := List.find?_some hf
          simpa using h
        exact ⟨hname, fun _ => rfl, fun hn =>
          absurd ⟨s, List.mem_of_find?_eq_some hf, hname⟩ hn⟩
    | none =>
        have hres : get_or_create_skill st n
            = ({ id := st.nextSkillId, name := n },
               { st with skills := st.skills ++ [{ id := st.nextSkillId, name := n }],
                         nextSkillId := st.nextSkillId + 1 },
               true) := by
          simp [get_or_create_skill, hf]
        rw [hres]
        refine ⟨rfl, ?_, fun _ => rfl⟩
        intro hex
        obtain ⟨s, hs, hsn⟩ := hex
        have := List.find?_eq_none.mp hf s hs
        exact absurd (decide_eq_true hsn) this
  · intro db rd
    cases hres : resolveTarget db rd with
    | some pi =>
        simp only [createOrUpdateFull, hres]
        obtain ⟨ext, hext⟩ := upsertTail_skills_ext pi.resume_id (updateHead db rd pi) rd
        exact ⟨ext, hext⟩
    | none =>
        simp only [createOrUpdateFull, hres]
        obtain ⟨ext, hext⟩ := upsertTail_skills_ext db.nextResumeId (createHead db rd) rd
        exact ⟨ext, hext⟩
  · intro db rid db2 hdel
    cases hf : db.resumes.find? (fun r => r.id = rid) with
    | none => rw [delete_resume, hf] at hdel; exact absurd hdel (by simp)
    | some r =>
        rw [delete_resume, hf, Option.some_inj] at hdel
        rw [← hdel]
        exact ⟨rfl, rfl, rfl, rfl, rfl, rfl⟩
  · intro db rd hwf
    exact (upsert_assoc_spec db rd hwf).2.2

/-- Witness for C5: discharging the store-invariant hypothesis at the
`Python` scenario and instantiating the lazy-creation clause. -/
theorem c5_skills_shared_lifecycle_check :
    ((createOrUpdateFull emptyDB rdPythonA).db.skills.map (fun s => s.name)).Nodup
    ∧ (get_or_create_skill emptyDB "Python").1.name = "Python" := by
  have h := c5_skills_shared_lifecycle
  exact ⟨h.2.2.2.1 emptyDB rdPythonA (by decide), (h.1 emptyDB "Python").1⟩

theorem techTagsOk_spec (o : Option (List String)) (h : techTagsOk o = true) :
    ∀ ts, o = Option.some ts →
      ¬ ts = [] ∧ ∀ t ∈ ts, (¬ ',' ∈ t.data) ∧ pyStrip t = t := by
  intro ts hts
  subst hts
  cases ts with
  | nil => exact absurd h (by simp [techTagsOk])
  | cons t ts' =>
      refine ⟨by simp, ?_⟩
      intro u hu
      have hall := List.all_eq_true.mp h u hu
      exact of_decide_eq_true hall

/-- C6 counterexample: the single tag `" Go"` is comma-free, yet
persist-then-fetch returns `["Go"]` — the read path strips the padding, so
the claimed round-trip over arbitrary comma-free tag lists fails. -/
theorem c6_roundtrip_refuted :
    rdTechPadded.projects.map (fun p => p.technologies) = [Option.some [" Go"]]
    ∧ (∀ p ∈ rdTechPadded.projects, ∀ ts, p.technologies = Option.some ts →
        ∀ t ∈ ts, ¬ ',' ∈ t.data)
    ∧ fetchedTechnologies
        (read_resume (createOrUpdateFull emptyDB rdTechPadded).db
          (createOrUpdateFull emptyDB rdTechPadded).rid)
        = [Option.some ["Go"]]
    ∧ ¬ (Option.some (["Go"] : List String) = Option.some [" Go"]) := by
  refine ⟨by decide, ?_, by decide, by decide⟩
  intro p hp ts hts
  have hp1 : p = { name := Option.some "P", description := Option.none,
                   technologies := Option.some [" Go"] } := by
    simpa [rdTechPadded] using hp
  rw [hp1] at hts
  simp only [Option.some_inj] at hts
  subst hts
  decide

/-- C6 amended: the persist-then-fetch round-trip for project technology
tags holds for every non-empty list of comma-free tags that carry no
surrounding whitespace (and for an absent tag list): fetching the freshly
created resume returns exactly the incoming technologies of every project,
in order.  A comma-free but whitespace-padded tag is returned trimmed, so
the padding restriction cannot be dropped (see the counterexample). -/
theorem c6_roundtrip_amended (rd : ResumeData)
    (htech : ∀ p ∈ rd.projects, techTagsOk p.technologies = true) :
    fetchedTechnologies
        (read_resume (createOrUpdateFull emptyDB rd).db
          (createOrUpdateFull emptyDB rd).rid)
      = rd.projects.map (fun p => p.technologies) := by
  have hres : resolveTarget emptyDB rd = Option.none := by
    simp [resolveTarget, emptyDB]
  have hinv0 : SkInv (createHead emptyDB rd) :=
    ⟨by simp [createHead, emptyDB], by simp [createHead, emptyDB],
     by simp [createHead, emptyDB]⟩
  obtain ⟨pairs, rows, h1, h2, h3, h4, h5, h6, h7, h8, h9, h10, h11⟩ :=
    upsertTail_spec emptyDB.nextResumeId (createHead emptyDB rd) rd hinv0
  simp only [createOrUpdateFull, hres]
  have hfind1 : (upsertTail emptyDB.nextResumeId (createHead emptyDB rd) rd).1.resumes.find?
      (fun r => r.id = emptyDB.nextResumeId)
      = Option.some { id := 1, summary := Option.none } := by
    rw [h7]
    rfl
  have hfind2 : (upsertTail emptyDB.nextResumeId (createHead emptyDB rd) rd).1.personalInfos.find?
      (fun p => p.resume_id = emptyDB.nextResumeId)
      = Option.some { id := 1, resume_id := 1,
                      name := rd.personal_info.name, email := rd.personal_info.email,
                      phone := rd.personal_info.phone,
                      location := rd.personal_info.location,
                      linkedin_url := rd.personal_info.linkedin_url } := by
    rw [h8]
    rfl
  have hread : read_resume (upsertTail emptyDB.nextResumeId (createHead emptyDB rd) rd).1
      emptyDB.nextResumeId
      = FetchResult.ok
          (aggregate (upsertTail emptyDB.nextResumeId (createHead emptyDB rd) rd).1
            { id := 1, summary := Option.none }
            { id := 1, resume_id := 1,
              name := rd.personal_info.name, email := rd.personal_info.email,
              phone := rd.personal_info.phone, location := rd.personal_info.location,
              linkedin_url := rd.personal_info.linkedin_url }
            Option.none) := by
    simp only [read_resume, hfind1, hfind2]
  rw [hread]
  show (((upsertTail emptyDB.nextResumeId (createHead emptyDB rd) rd).1.projects.filter
      (fun p => p.resume_id = 1)).map toProjectData).map (fun p => p.technologies)
      = rd.projects.map (fun p => p.technologies)
  rw [h10]
  show ((((buildProjectRows 1 1 rd.projects) : List ProjectRow).filter
      (fun p => p.resume_id = 1)).map toProjectData).map (fun p => p.technologies)
      = rd.projects.map (fun p => p.technologies)
  rw [buildProjectRows_filter, buildProjectRows_map_round 1 rd.projects 1
    (fun p hp ts hts => techTagsOk_spec p.technologies (htech p hp) ts hts)]

/-- Witness for the amended C6 at the `["Go", "Kafka"]` project. -/
theorem c6_roundtrip_amended_check :
    fetchedTechnologies
        (read_resume (createOrUpdateFull emptyDB rdTechGoKafka).db
          (createOrUpdateFull emptyDB rdTechGoKafka).rid)
      = rdTechGoKafka.projects.map (fun p => p.technologies) :=
  c6_roundtrip_amended rdTechGoKafka (by decide)

theorem buildProjectRows_map_tech (rid : Nat) :
    ∀ (l : List ProjectData) (startId : Nat),
      (buildProjectRows startId rid l).map (fun r => r.technologies)
        = l.map (fun p => joinTech p.technologies) := by
  intro l
  induction l with
  | nil => intro startId; rfl
  | cons p ps ih =>
      intro startId
      simp only [buildProjectRows, List.map_cons]
      rw [ih (startId + 1)]

theorem map_congr_all {α β : Type} (f g : α → β) (h : ∀ a, f a = g a) :
    ∀ (l : List α), l.map f = l.map g := by
  intro l
  induction l with
  | nil => rfl
  | cons a t ih => simp only [List.map_cons, ih, h a]

theorem joinTech_match_eq (p : ProjectData) :
    joinTech p.technologies
      = match p.technologies with
        | Option.some (t :: ts) => PyTech.strv (pyJoinCommaSpace (t :: ts))
        | Option.some [] => PyTech.listv []
        | Option.none => PyTech.nullv := by
  cases hpt : p.technologies with
  | none => rfl
  | some l =>
      cases l with
      | nil => rfl
      | cons t ts => rfl

/-- C7 counterexample: the project with technologies `["Go", "Kafka"]` is
stored as the text `"Go, Kafka"` — the join delimiter in the source is
`", "` (comma AND space, crud.py line 72), not the comma-with-no-space
delimiter the claim asserts, so the stored field is not `"Go,Kafka"`. -/
theorem c7_delimiter_refuted :
    (createOrUpdateFull emptyDB rdTechGoKafka).db.projects.map
        (fun p => p.technologies)
      = [PyTech.strv "Go, Kafka"]
    ∧ ¬ ((createOrUpdateFull emptyDB rdTechGoKafka).db.projects.map
        (fun p => p.technologies)
      = [PyTech.strv "Go,Kafka"]) := by
  decide

/-- C7 amended: for every project with a non-empty incoming technology-tag
list, the stored text field equals the tags joined with the comma-space
delimiter `", "` (e.g. `["Go", "Kafka"]` is stored as `"Go, Kafka"`); a
`None` list is stored as NULL and an empty list passes through unjoined. -/
theorem c7_delimiter_amended (db : DB) (rd : ResumeData) (hwf : db.WF) :
    ((createOrUpdateFull db rd).db.projects.filter
        (fun p => p.resume_id = (createOrUpdateFull db rd).rid)).map
      (fun p => p.technologies)
      = rd.projects.map (fun p =>
          match p.technologies with
          | Option.some (t :: ts) => PyTech.strv (pyJoinCommaSpace (t :: ts))
          | Option.some [] => PyTech.listv []
          | Option.none => PyTech.nullv) := by
  obtain ⟨hRnd, hRlt, hPnd, hPlt, hPrnd, hPref, hRpi, hSnd, hSnnd, hSlt,
          hWref, hJref, hEref, hAref, hTech⟩ := hwf
  cases hres : resolveTarget db rd with
  | some pi =>
      have hinv0 : SkInv (updateHead db rd pi) := ⟨hSnd, hSnnd, hSlt⟩
      obtain ⟨pairs, rows, h1, h2, h3, h4, h5, h6, h7, h8, h9, h10, h11⟩ :=
        upsertTail_spec pi.resume_id (updateHead db rd pi) rd hinv0
      simp only [createOrUpdateFull, hres]
      rw [h10, List.filter_append]
      have hold : ((updateHead db rd pi).projects).filter
          (fun p => p.resume_id = pi.resume_id) = [] := by
        show ((db.projects.filter (fun p => ¬ p.resume_id = pi.resume_id)).filter
            (fun p => p.resume_id = pi.resume_id)) = []
        exact filter_filter_neg _ db.projects
      rw [hold, List.nil_append, buildProjectRows_filter, buildProjectRows_map_tech]
      exact map_congr_all _ _ joinTech_match_eq rd.projects
  | none =>
      have hinv0 : SkInv (createHead db rd) := ⟨hSnd, hSnnd, hSlt⟩
      obtain ⟨pairs, rows, h1, h2, h3, h4, h5, h6, h7, h8, h9, h10, h11⟩ :=
        upsertTail_spec db.nextResumeId (createHead db rd) rd hinv0
      simp only [createOrUpdateFull, hres]
      rw [h10, List.filter_append]
      have hold : ((createHead db rd).projects).filter
          (fun p => p.resume_id = db.nextResumeId) = [] := by
        show db.projects.filter (fun p => p.resume_id = db.nextResumeId) = []
        apply List.filter_eq_nil_iff.mpr
        intro p hp
        obtain ⟨r, hr, har⟩ := hJref p hp
        have hlt := hRlt r hr
        simp only [decide_eq_true_eq]
        omega
      rw [hold, List.nil_append, buildProjectRows_filter, buildProjectRows_map_tech]
      exact map_congr_all _ _ joinTech_match_eq rd.projects

/-- Witness for the amended C7 at the `["Go", "Kafka"]` project. -/
theorem c7_delimiter_amended_check :
    ((createOrUpdateFull emptyDB rdTechGoKafka).db.projects.filter
        (fun p => p.resume_id = (createOrUpdateFull emptyDB rdTechGoKafka).rid)).map
      (fun p => p.technologies)
      = rdTechGoKafka.projects.map (fun p =>
          match p.technologies with
          | Option.some (t :: ts) => PyTech.strv (pyJoinCommaSpace (t :: ts))
          | Option.some [] => PyTech.listv []
          | Option.none => PyTech.nullv) :=
  c7_delimiter_amended emptyDB rdTechGoKafka (by decide)

theorem mapM_option_mem {α β : Type} (f : α → Option β) :
    ∀ (l : List α), (∀ a ∈ l, (f a).isSome = true) →
      ∃ m, l.mapM f = Option.some m
        ∧ ∀ x b, x ∈ l → f x = Option.some b → b ∈ m := by
  intro l
  induction l with
  | nil => exact fun _ => ⟨[], rfl, by simp⟩
  | cons a t ih =>
      intro h
      obtain ⟨b0, hb0⟩ := Option.isSome_iff_exists.mp (h a (by simp))
      obtain ⟨m, hm, hmem⟩ := ih (fun x hx => h x (by simp [hx]))
      refine ⟨b0 :: m, ?_, ?_⟩
      · rw [List.mapM_cons, hb0, hm]; rfl
      · intro x b hx hb
        rcases List.mem_cons.mp hx with h1 | h2
        · rw [h1] at hb
          rw [hb] at hb0
          rw [Option.some_inj] at hb0
          rw [← hb0]
          simp
        · exact List.mem_cons_of_mem _ (hmem x b h2 hb)

/-- C8 counterexample: fetching the stored resume by id returns the
aggregate with a NULL identifier (`id = None`) — `main.read_resume` never
passes `id` to the response model — and search-by-email likewise; only
list-all attaches the assigned identifier.  The claim that every
successful fetch/search returns the aggregate "plus an assigned
integer-like identifier" is false. -/
theorem c8_identifier_refuted :
    fetchedId (read_resume dbScenario 1) = Option.some Option.none
    ∧ fetchedId (search_resume_by_email dbScenario "a@x.com")
        = Option.some Option.none
    ∧ (list_all_resumes dbScenario).map (fun l => l.map (fun r => r.id))
        = Option.some [Option.some 1] := by
  decide

/-- C8 amended: every successful fetch-by-id and search-by-email returns
the aggregate shape with skills as plain name strings and technologies as
lists, but with a NULL identifier; only list-all carries the assigned id:
the fetched aggregate reappears in the list-all output with exactly the
requested id attached. -/
theorem c8_outbound_amended (db : DB) (hwf : db.WF) :
    (∀ rid res, read_resume db rid = FetchResult.ok res →
        res.id = Option.none
        ∧ (∃ all, list_all_resumes db = Option.some all
            ∧ { res with id := Option.some rid } ∈ all))
    ∧ (∀ e res, search_resume_by_email db e = FetchResult.ok res →
        res.id = Option.none) := by
  obtain ⟨hRnd, hRlt, hPnd, hPlt, hPrnd, hPref, hRpi, hSnd, hSnnd, hSlt,
          hWref, hJref, hEref, hAref, hTech⟩ := hwf
  constructor
  · intro rid res h
    unfold read_resume at h
    cases hf1 : db.resumes.find? (fun r => r.id = rid) with
    | none => rw [hf1] at h; exact absurd h (by simp)
    | some r =>
        rw [hf1] at h
        cases hf2 : db.personalInfos.find? (fun p => p.resume_id = rid) with
        | none => rw [hf2] at h; exact absurd h (by simp)
        | some pi =>
            rw [hf2] at h
            have h2 : FetchResult.ok (aggregate db r pi Option.none)
                = FetchResult.ok res := h
            have h3 : aggregate db r pi Option.none = res := by
              injection h2
            have hrid : r.id = rid := by
              have hp := List.find?_some hf1
              simpa using hp
            refine ⟨by rw [← h3]; rfl, ?_⟩
            have hsome : ∀ r' ∈ db.resumes,
                ((db.personalInfos.find? (fun p => p.resume_id = r'.id)).map
                  (fun pi => aggregate db r' pi (Option.some r'.id))).isSome = true := by
              intro r' hr'
              obtain ⟨p, hpmem, hpr⟩ := hRpi r' hr'
              have hiss : (db.personalInfos.find?
                  (fun q => q.resume_id = r'.id)).isSome = true :=
                List.find?_isSome.mpr ⟨p, hpmem, decide_eq_true hpr⟩
              cases hfq : db.personalInfos.find? (fun q => q.resume_id = r'.id) with
              | none => rw [hfq] at hiss; exact absurd hiss (by simp)
              | some q => rfl
            obtain ⟨all, hall, hmem⟩ :=
              mapM_option_mem
                (fun r' => (db.personalInfos.find? (fun p => p.resume_id = r'.id)).map
                  (fun pi => aggregate db r' pi (Option.some r'.id)))
                db.resumes hsome
            refine ⟨all, hall, ?_⟩
            have hfr : (db.personalInfos.find? (fun p => p.resume_id = r.id)).map
                (fun pi => aggregate db r pi (Option.some r.id))
                = Option.some (aggregate db r pi (Option.some r.id)) := by
              rw [hrid, hf2]
              rfl
            have hin := hmem r (aggregate db r pi (Option.some r.id))
              (List.mem_of_find?_eq_some hf1) hfr
            have hagg : aggregate db r pi (Option.some r.id)
                = { res with id := Option.some rid } := by
              rw [← h3, hrid]
              rfl
            rw [← hagg]
            exact hin
  · intro e res h
    unfold search_resume_by_email at h
    cases hf1 : db.personalInfos.find? (fun p => p.email = Option.some e) with
    | none => rw [hf1] at h; exact absurd h (by simp)
    | some pi =>
        rw [hf1] at h
        have hh : (match db.resumes.find? (fun r => r.id = pi.resume_id) with
            | Option.none => FetchResult.notFound
            | Option.some r => FetchResult.ok (aggregate db r pi Option.none))
            = FetchResult.ok res := h
        cases hf2 : db.resumes.find? (fun r => r.id = pi.resume_id) with
        | none => rw [hf2] at hh; exact absurd hh (by simp)
        | some r =>
            rw [hf2] at hh
            have h2 : FetchResult.ok (aggregate db r pi Option.none)
                = FetchResult.ok res := hh
            have h3 : aggregate db r pi Option.none = res := by
              injection h2
            rw [← h3]
            rfl

/-- Witness for the amended C8: fetching resume 1 of the scenario store
yields the aggregate with a NULL id, and the same aggregate with id 1
appears in the list-all output. -/
theorem c8_outbound_amended_check :
    resScenarioFetch.id = Option.none
    ∧ (∃ all, list_all_resumes dbScenario = Option.some all
        ∧ { resScenarioFetch with id := Option.some 1 } ∈ all) :=
  (c8_outbound_amended dbScenario (by decide)).1 1 resScenarioFetch (by decide)

/-- C9 counterexample: the inbound record in which every field, including
the whole personal-info block, is absent is NOT accepted: `personal_info`
is a required field of `schemas.ResumeData` (no default, not Optional), so
validation rejects the fully empty record instead of taking the create
path. -/
theorem c9_empty_record_refuted :
    validateResumeData rawAllAbsent
      = Except.error "personal_info: Field required" := rfl

/-- C9 amended: a record whose personal-info block is present but empty —
with every other field absent or null — is accepted, and the upsert takes
the create path, producing a single new resume aggregate with all fields
null/empty and committing exactly once; but a record whose personal-info
block itself is absent (or null) is rejected by validation. -/
theorem c9_empty_record_amended :
    validateResumeData rawEmptyWithPI = Except.ok rdAllEmpty
    ∧ (createOrUpdateFull emptyDB rdAllEmpty).rid = 1
    ∧ (createOrUpdateFull emptyDB rdAllEmpty).db.resumes
        = [{ id := 1, summary := Option.none }]
    ∧ (createOrUpdateFull emptyDB rdAllEmpty).db.personalInfos
        = [{ id := 1, resume_id := 1, name := Option.none, email := Option.none,
             phone := Option.none, location := Option.none,
             linkedin_url := Option.none }]
    ∧ (createOrUpdateFull emptyDB rdAllEmpty).db.skills = []
    ∧ (createOrUpdateFull emptyDB rdAllEmpty).db.assoc = []
    ∧ (createOrUpdateFull emptyDB rdAllEmpty).db.workExperiences = []
    ∧ (createOrUpdateFull emptyDB rdAllEmpty).db.projects = []
    ∧ (createOrUpdateFull emptyDB rdAllEmpty).db.educations = []
    ∧ (createOrUpdateFull emptyDB rdAllEmpty).commits.length = 1 := by
  refine ⟨rfl, ?_⟩
  decide

/-- C10: every technology tag returned on a fetch is comma-free and
carries no surrounding whitespace (stripping it again changes nothing),
because the read path splits the stored text on every comma and strips
each fragment; consequently the single comma-carrying tag
`"C, embedded"` comes back as the two tags `["C", "embedded"]`, so the
round-trip holds only for comma-free tags. -/
theorem c10_fetched_tags_normalized :
    (∀ (db : DB) (rid : Nat) (res : ResumeData), db.WF →
        read_resume db rid = FetchResult.ok res →
        ∀ p ∈ res.projects, ∀ ts, p.technologies = Option.some ts →
          ∀ t ∈ ts, (¬ ',' ∈ t.data) ∧ pyStrip t = t)
    ∧ fetchedTechnologies
        (read_resume (createOrUpdateFull emptyDB rdTechComma).db
          (createOrUpdateFull emptyDB rdTechComma).rid)
        = [Option.some ["C", "embedded"]]
    ∧ ¬ (Option.some (["C", "embedded"] : List String)
          = Option.some ["C, embedded"]) := by
  refine ⟨?_, by decide, by decide⟩
  intro db rid res hwf h
  obtain ⟨hRnd, hRlt, hPnd, hPlt, hPrnd, hPref, hRpi, hSnd, hSnnd, hSlt,
          hWref, hJref, hEref, hAref, hTech⟩ := hwf
  unfold read_resume at h
  cases hf1 : db.resumes.find? (fun r => r.id = rid) with
  | none => rw [hf1] at h; exact absurd h (by simp)
  | some r =>
      rw [hf1] at h
      cases hf2 : db.personalInfos.find? (fun p => p.resume_id = rid) with
      | none => rw [hf2] at h; exact absurd h (by simp)
      | some pi =>
          rw [hf2] at h
          have h2 : FetchResult.ok (aggregate db r pi Option.none)
              = FetchResult.ok res := h
          have h3 : aggregate db r pi Option.none = res := by
            injection h2
          intro p hp ts hts t ht
          rw [← h3] at hp
          have hp2 : p ∈ (db.projects.filter
              (fun q => q.resume_id = r.id)).map toProjectData := hp
          obtain ⟨row, hrowf, hrowp⟩ := List.mem_map.mp hp2
          have hrowdb : row ∈ db.projects := List.mem_of_mem_filter hrowf
          have htok := hTech row hrowdb
          have hts2 : split_technologies row.technologies = Option.some ts := by
            rw [← hrowp] at hts
            exact hts
          cases hrt : row.technologies with
          | nullv =>
              rw [hrt] at hts2
              exact absurd hts2 (by simp [split_technologies])
          | listv l =>
              rw [hrt] at htok hts2
              have hl : l = [] := by
                cases l with
                | nil => rfl
                | cons a as => simp [storedTechOk] at htok
              rw [hl] at hts2
              have hts3 : ts = [] := by
                have := Option.some_inj.mp hts2
                rw [← this]
              rw [hts3] at ht
              exact absurd ht (by simp)
          | strv s =>
              rw [hrt] at hts2
              have hts3 : (pySplitComma s).map pyStrip = ts := by
                simpa [split_technologies] using hts2
              rw [← hts3] at ht
              obtain ⟨frag, hfrag, hstript⟩ := List.mem_map.mp ht
              have hfrag2 : frag ∈ (splitCommaChars s.data []).map
                  (fun cs => (⟨cs⟩ : String)) := hfrag
              obtain ⟨cs, hcs, hmk⟩ := List.mem_map.mp hfrag2
              rw [← hstript, ← hmk]
              constructor
              · intro hc
                have hc2 : ',' ∈ stripChars cs := hc
                have hc3 := mem_of_mem_stripChars cs ',' hc2
                exact splitCommaChars_frag_no_comma s.data [] (by simp)
                  cs hcs ',' hc3 rfl
              · show (⟨stripChars (stripChars cs)⟩ : String) = ⟨stripChars cs⟩
                rw [stripChars_idem]

/-- Witness for C10: instantiating the normalization statement at the
comma-splitting store and the tag `"C"`. -/
theorem c10_fetched_tags_normalized_check :
    (¬ ',' ∈ "C".data) ∧ pyStrip "C" = "C" :=
  c10_fetched_tags_normalized.1
    (createOrUpdateFull emptyDB rdTechComma).db
    (createOrUpdateFull emptyDB rdTechComma).rid
    resTechCommaFetch (by decide) (by decide)
    { name := Option.some "P", description := Option.none,
      technologies := Option.some ["C", "embedded"] }
    (by decide) ["C", "embedded"] (by decide) "C" (by decide)

end ResumeParser
